import Mathlib

/-!
MolCore: Molecule, Atom/Bond handles and VariantMap.

A shallow embedding of `src/molecule.cpp`, `src/atom.h` and `src/variantmap.cpp`.

* `size_t` values are natural numbers below `SIZE_MOD = 2 ^ 64`; the only arithmetic
  that can wrap is the loop counter of `Molecule::removeAtom`, which is modelled with
  explicit `% SIZE_MOD`.
* `unsigned char` values are natural numbers below `256`; the conversion of a
  `size_t` to `unsigned char` is `% 256`.
* `std::vector` is `List`. `erase(begin() + i)` is `List.eraseIdx`, `push_back x` is
  `xs ++ [x]`.
* A failed `assert`, an access outside a vector, and an exhausted loop budget are the
  result `none`.
* A pointer to a molecule is `Option Nat`: `none` is the null pointer, `some p` the
  address `p`. Every `Molecule` value carries its own address in `addr` (`this`).
-/

namespace MolCore

/-! ## Machine integers -/

/-- Number of values of `size_t`. -/
def SIZE_MOD : Nat := 2 ^ 64

/-- `i++` on a `size_t`. -/
def sizeInc (i : Nat) : Nat := (i + 1) % SIZE_MOD

/-- `i--` on a `size_t` (wraps from `0` to `SIZE_MOD - 1`). -/
def sizeDec (i : Nat) : Nat := (i + SIZE_MOD - 1) % SIZE_MOD

/-- Conversion of a `size_t` to `unsigned char`. -/
def toUChar (n : Nat) : Nat := n % 256

/-- Converting constructor `std::pair<unsigned char, unsigned char>(const std::pair<size_t, size_t>&)`,
used at `molecule.cpp:119` and `molecule.cpp:175`. -/
def ucharPair (p : Nat × Nat) : Nat × Nat := (toUChar p.1, toUChar p.2)

/-! ## Graph -/

/-- One mutating call made on a `Graph`, with its arguments. -/
inductive GraphCall where
  | addVertex
  | removeVertex (index : Nat)
  | addEdge (a b : Nat)
  | removeEdge (a b : Nat)
deriving DecidableEq, Repr

/-- Modelled from the spec: the class `Graph` (`graph.h`, `graph.cpp`), which is not among the
sources. Section 4.1 of the specification gives its contract: vertices are the dense indices
`0 .. vertexCount - 1`, every edge references two vertex indices. `calls` records, in order,
the mutating operations (`addVertex`, `removeVertex`, `addEdge`, `removeEdge`) that were
invoked on the graph together with their arguments; the queries `size()` and `isEmpty()` are
not recorded. -/
structure Graph where
  vertexCount : Nat
  edges : List (Nat × Nat)
  calls : List GraphCall
deriving DecidableEq, Repr

/-- Modelled from the spec: the default constructed `Graph`. -/
def Graph.empty : Graph := { vertexCount := 0, edges := [], calls := [] }

/-- Modelled from the spec: `Graph::size()`, the vertex count. -/
def Graph.size (g : Graph) : Nat := g.vertexCount

/-- Modelled from the spec: `Graph::isEmpty()`. -/
def Graph.isEmpty (g : Graph) : Bool := g.vertexCount == 0

/-- Modelled from the spec: `Graph::addVertex()` appends a new vertex and returns its dense
index, which is the prior vertex count. -/
def Graph.addVertex (g : Graph) : Graph × Nat :=
  ({ g with vertexCount := g.vertexCount + 1, calls := g.calls ++ [GraphCall.addVertex] },
    g.vertexCount)

/-- Renumbering of a vertex index when the vertex `index` is removed. -/
def shiftDown (index v : Nat) : Nat := if index < v then v - 1 else v

/-- Modelled from the spec: `Graph::removeVertex(index)` removes the vertex (the caller
guarantees `index < vertexCount`), removes the edges touching it and shifts every vertex
index greater than `index` down by one. -/
def Graph.removeVertex (g : Graph) (index : Nat) : Graph :=
  { vertexCount := g.vertexCount - 1
    edges := (g.edges.filter (fun e => e.1 != index && e.2 != index)).map
      (fun e => (shiftDown index e.1, shiftDown index e.2))
    calls := g.calls ++ [GraphCall.removeVertex index] }

/-- Modelled from the spec: `Graph::addEdge(a, b)` creates an edge between the vertex indices
`a` and `b`; self loops and duplicates are not rejected. -/
def Graph.addEdge (g : Graph) (a b : Nat) : Graph :=
  { g with edges := g.edges ++ [(a, b)], calls := g.calls ++ [GraphCall.addEdge a b] }

/-- Modelled from the spec: `Graph::removeEdge(a, b)` removes an edge identified by its
endpoint pair (one of them when parallel edges exist). -/
def Graph.removeEdge (g : Graph) (a b : Nat) : Graph :=
  { g with edges := g.edges.erase (a, b), calls := g.calls ++ [GraphCall.removeEdge a b] }

/-! ## Variant and VariantMap -/

/-- Modelled from the spec: the class `Variant` (`variant.h`), which is not among the sources:
a closed tagged union, default constructed to the empty kind. A floating point payload is
carried as its bit pattern. -/
inductive Variant where
  | null
  | bool (b : Bool)
  | int (i : Int)
  | double (bits : Nat)
  | string (s : String)
deriving DecidableEq, Repr

/-- `m_map[name] = value` on a `std::map<std::string, Variant>`, kept as a list of entries
with pairwise different keys: the entry of `name` is overwritten, or a new entry is added. -/
def mapAssign : List (String × Variant) → String → Variant → List (String × Variant)
  | [], name, value => [(name, value)]
  | (k, v) :: rest, name, value =>
    if k = name then (k, value) :: rest else (k, v) :: mapAssign rest name value

/-- `m_map.at(name)`: the value stored for `name`; `none` stands for the `std::out_of_range`
exception. -/
def mapAt : List (String × Variant) → String → Option Variant
  | [], _ => none
  | (k, v) :: rest, name => if k = name then some v else mapAt rest name

/-- The class `VariantMap`. Modelled from the spec: its member `m_map` is declared in
`variantmap.h`, which is not among the sources; it is a map from string names to `Variant`
values with unique keys, held here as the list of its entries. -/
structure VariantMap where
  m_map : List (String × Variant)
deriving DecidableEq, Repr

/-- `VariantMap::VariantMap()`. -/
def VariantMap.empty : VariantMap := { m_map := [] }

/-- `VariantMap::size()`. -/
def VariantMap.size (vm : VariantMap) : Nat := vm.m_map.length

/-- `VariantMap::isEmpty()`. -/
def VariantMap.isEmpty (vm : VariantMap) : Bool := vm.m_map.isEmpty

/-- `VariantMap::setValue(name, value)`. -/
def VariantMap.setValue (vm : VariantMap) (name : String) (value : Variant) : VariantMap :=
  { m_map := mapAssign vm.m_map name value }

/-- `VariantMap::value(name)`. -/
def VariantMap.value (vm : VariantMap) (name : String) : Option Variant :=
  mapAt vm.m_map name

/-! ## Handles -/

/-- The class `Atom` of `atom.h`: a molecule pointer and an index. -/
structure Atom where
  m_molecule : Option Nat
  m_index : Nat
deriving DecidableEq, Repr

/-- Modelled from the spec: `Atom::isValid()` (declared in `atom.h`, defined in `atom.cpp`,
which is not among the sources): the owning molecule pointer is not null. -/
def Atom.isValid (a : Atom) : Bool := a.m_molecule.isSome

/-- Modelled from the spec: `Atom::molecule()`. -/
def Atom.molecule (a : Atom) : Option Nat := a.m_molecule

/-- Modelled from the spec: `Atom::index()`. -/
def Atom.index (a : Atom) : Nat := a.m_index

/-- Modelled from the spec: the class `Bond` (`bond.h`), which is not among the sources: a
molecule pointer and a bond index, with the same accessors as `Atom`. -/
structure Bond where
  m_molecule : Option Nat
  m_index : Nat
deriving DecidableEq, Repr

/-- Modelled from the spec: `Bond::Bond()`, the invalid (empty) handle. -/
def Bond.null : Bond := { m_molecule := none, m_index := 0 }

/-- Modelled from the spec: `Bond::isValid()`. -/
def Bond.isValid (b : Bond) : Bool := b.m_molecule.isSome

/-- Modelled from the spec: `Bond::molecule()`. -/
def Bond.molecule (b : Bond) : Option Nat := b.m_molecule

/-- Modelled from the spec: `Bond::index()`. -/
def Bond.index (b : Bond) : Nat := b.m_index

/-! ## Molecule -/

/-- The class `Molecule`: its data members as used by `molecule.cpp`, and its address. -/
structure Molecule where
  addr : Nat
  m_graph : Graph
  m_atomicNumbers : List Nat
  m_bondPairs : List (Nat × Nat)
  m_bondOrders : List Nat
  m_data : VariantMap
deriving DecidableEq, Repr

/-- `Molecule::Molecule()`, for an object at address `addr`. -/
def Molecule.empty (addr : Nat) : Molecule :=
  { addr := addr, m_graph := Graph.empty, m_atomicNumbers := [], m_bondPairs := [],
    m_bondOrders := [], m_data := VariantMap.empty }

/-- `Molecule::size()`. -/
def Molecule.size (m : Molecule) : Nat := m.m_graph.size

/-- `Molecule::isEmpty()`. -/
def Molecule.isEmpty (m : Molecule) : Bool := m.m_graph.isEmpty

/-- `Molecule::setData(name, value)`. -/
def Molecule.setData (m : Molecule) (name : String) (value : Variant) : Molecule :=
  { m with m_data := m.m_data.setValue name value }

/-- `Molecule::data(name)`. -/
def Molecule.data (m : Molecule) (name : String) : Option Variant := m.m_data.value name

/-- `Molecule::atomicNumbers()`. -/
def Molecule.atomicNumbers (m : Molecule) : List Nat := m.m_atomicNumbers

/-- `Molecule::bondPairs()`. -/
def Molecule.bondPairs (m : Molecule) : List (Nat × Nat) := m.m_bondPairs

/-- `Molecule::bondOrders()`. -/
def Molecule.bondOrders (m : Molecule) : List Nat := m.m_bondOrders

/-- `Molecule::graph()`. -/
def Molecule.graph (m : Molecule) : Graph := m.m_graph

/-- `Molecule::atomCount()`. -/
def Molecule.atomCount (m : Molecule) : Nat := m.m_graph.size

/-- `Molecule::bondCount()`. -/
def Molecule.bondCount (m : Molecule) : Nat := m.m_bondPairs.length

/-- `Molecule::addAtom(atomicNumber)`: the new state and the returned handle. -/
def Molecule.addAtom (m : Molecule) (atomicNumber : Nat) : Molecule × Atom :=
  let r := m.m_graph.addVertex
  ({ m with m_graph := r.1, m_atomicNumbers := m.m_atomicNumbers ++ [atomicNumber] },
    { m_molecule := some m.addr, m_index := r.2 })

/-- The `for` loop of `Molecule::removeAtom(size_t)` (`molecule.cpp:118-126`), started with
loop counter `i` on the vectors `pairs` (`m_bondPairs`) and `orders` (`m_bondOrders`).
`fuel` bounds the number of times the loop condition is evaluated. The result is `none`
when the budget is used up or when `m_bondOrders.erase` is asked for a position outside
the vector. -/
def removeAtomLoop (index : Nat) :
    Nat → Nat → List (Nat × Nat) → List Nat → Option (List (Nat × Nat) × List Nat)
  | 0, _, _, _ => none
  | fuel + 1, i, pairs, orders =>
    if h : i < pairs.length then
      let bondPair := ucharPair (pairs.get ⟨i, h⟩)
      if bondPair.1 = index ∨ bondPair.2 = index then
        if i < orders.length then
          removeAtomLoop index fuel (sizeInc (sizeDec i)) (pairs.eraseIdx i) (orders.eraseIdx i)
        else none
      else removeAtomLoop index fuel (sizeInc i) pairs orders
    else some (pairs, orders)

/-- The first statement of `Molecule::removeAtom(size_t)`: the bond scan, run on the
molecule. The graph is not an operand of the loop. -/
def Molecule.removeAtomBonds (m : Molecule) (index : Nat) : Option Molecule :=
  match removeAtomLoop index (m.m_bondPairs.length + 1) 0 m.m_bondPairs m.m_bondOrders with
  | none => none
  | some r => some { m with m_bondPairs := r.1, m_bondOrders := r.2 }

/-- `Molecule::removeAtom(size_t index)`. -/
def Molecule.removeAtom (m : Molecule) (index : Nat) : Option Molecule :=
  if index < m.size then
    match m.removeAtomBonds index with
    | none => none
    | some m1 =>
      if index < m1.m_atomicNumbers.length then
        some { m1 with m_graph := m1.m_graph.removeVertex index,
                       m_atomicNumbers := m1.m_atomicNumbers.eraseIdx index }
      else none
  else none

/-- `Molecule::removeAtom(const Atom &atom)`. -/
def Molecule.removeAtomHandle (m : Molecule) (atom : Atom) : Option Molecule :=
  if atom.isValid = true ∧ atom.molecule = some m.addr then m.removeAtom atom.index else none

/-- `Molecule::atom(size_t index)`. -/
def Molecule.atom (m : Molecule) (index : Nat) : Option Atom :=
  if index < m.size then some { m_molecule := some m.addr, m_index := index } else none

/-- `Molecule::addBond(a, b, bondOrder)`: the new state and the returned handle. -/
def Molecule.addBond (m : Molecule) (a b : Atom) (bondOrder : Nat) : Option (Molecule × Bond) :=
  if a.isValid = true ∧ a.molecule = some m.addr then
    if b.isValid = true ∧ b.molecule = some m.addr then
      let g := m.m_graph.addEdge a.index b.index
      let pairs := m.m_bondPairs ++ [(a.index, b.index)]
      let orders := m.m_bondOrders ++ [bondOrder]
      some ({ m with m_graph := g, m_bondPairs := pairs, m_bondOrders := orders },
        { m_molecule := some m.addr, m_index := pairs.length - 1 })
    else none
  else none

/-- `Molecule::removeBond(size_t index)`. -/
def Molecule.removeBond (m : Molecule) (index : Nat) : Option Molecule :=
  if h : index < m.bondCount then
    let bondPair := ucharPair (m.m_bondPairs.get ⟨index, h⟩)
    if index < m.m_bondOrders.length then
      some { m with m_graph := m.m_graph.removeEdge bondPair.1 bondPair.2,
                    m_bondPairs := m.m_bondPairs.eraseIdx index,
                    m_bondOrders := m.m_bondOrders.eraseIdx index }
    else none
  else none

/-- `Molecule::removeBond(const Bond &bond)`. -/
def Molecule.removeBondHandle (m : Molecule) (bond : Bond) : Option Molecule :=
  if bond.isValid = true ∧ bond.molecule = some m.addr then m.removeBond bond.index else none

/-- `Molecule::bond(size_t index)`. -/
def Molecule.bondAt (m : Molecule) (index : Nat) : Option Bond :=
  if index < m.bondCount then some { m_molecule := some m.addr, m_index := index } else none

/-- `std::find(first, last, value)` on a vector of pairs: the offset of the returned iterator
from `first`; the length of the vector stands for `last`. -/
def find : List (Nat × Nat) → Nat × Nat → Nat
  | [], _ => 0
  | x :: xs, value => if x = value then 0 else find xs value + 1

/-- `Molecule::bond(const Atom &a, const Atom &b)`; `none` is a failed assertion, the
default constructed `Bond()` is `Bond.null`. -/
def Molecule.bond (m : Molecule) (a b : Atom) : Option Bond :=
  if a.isValid = true ∧ a.molecule = some m.addr then
    if b.isValid = true ∧ b.molecule = some m.addr then
      let bondPair := (a.index, b.index)
      let iter := find m.m_bondPairs bondPair
      if iter = m.m_bondPairs.length then some Bond.null
      else some { m_molecule := some m.addr, m_index := iter }
    else none
  else none

/-- `Molecule::removeBond(const Atom &a, const Atom &b)`. -/
def Molecule.removeBondBetween (m : Molecule) (a b : Atom) : Option Molecule :=
  if a.isValid = true ∧ a.molecule = some m.addr then
    if b.isValid = true ∧ b.molecule = some m.addr then
      match m.bond a b with
      | none => none
      | some bd => m.removeBondHandle bd
    else none
  else none

/-! ## Sequences of calls -/

/-- One call of a mutating member function of `Molecule`. -/
inductive Op where
  | addAtom (atomicNumber : Nat)
  | removeAtom (index : Nat)
  | removeAtomHandle (atom : Atom)
  | addBond (a b : Atom) (bondOrder : Nat)
  | removeBond (index : Nat)
  | removeBondHandle (bond : Bond)
  | removeBondBetween (a b : Atom)
deriving DecidableEq, Repr

/-- The state after one call; `none` when the call fails. -/
def Molecule.apply (m : Molecule) : Op → Option Molecule
  | Op.addAtom atomicNumber => some (m.addAtom atomicNumber).1
  | Op.removeAtom index => m.removeAtom index
  | Op.removeAtomHandle atom => m.removeAtomHandle atom
  | Op.addBond a b bondOrder => (m.addBond a b bondOrder).map Prod.fst
  | Op.removeBond index => m.removeBond index
  | Op.removeBondHandle bond => m.removeBondHandle bond
  | Op.removeBondBetween a b => m.removeBondBetween a b

/-- The state after a sequence of calls, each made on the state the previous one left;
`none` when one of them fails. -/
def Molecule.run (m : Molecule) : List Op → Option Molecule
  | [] => some m
  | op :: ops =>
    match m.apply op with
    | none => none
    | some m1 => m1.run ops

/-- The handles returned by successive `addAtom` calls with the given atomic numbers, in
call order, and the final state. -/
def Molecule.addAtoms (m : Molecule) : List Nat → Molecule × List Atom
  | [] => (m, [])
  | z :: zs =>
    let r := m.addAtom z
    let rest := r.1.addAtoms zs
    (rest.1, r.2 :: rest.2)

/-- Every stored bond endpoint is an index of a current atom. -/
def Molecule.endpointsInRange (m : Molecule) : Prop :=
  ∀ p ∈ m.bondPairs, p.1 < m.atomCount ∧ p.2 < m.atomCount

/-- The condition under which `removeAtom(index)` leaves no stored endpoint to renumber: each
stored bond pair either has an endpoint equal to `index`, with `index < 256`, or has both
endpoints below `index`. -/
def Molecule.removeAtomWithin (m : Molecule) (index : Nat) : Bool :=
  m.bondPairs.all (fun p =>
    (decide (index < 256) && (decide (p.1 = index) || decide (p.2 = index))) ||
      (decide (p.1 < index) && decide (p.2 < index)))

/-- A call that, when it is an `addBond`, is given handles whose index is below the atom
count of the state it is made on, and, when it is a `removeAtom`, satisfies
`Molecule.removeAtomWithin` on that state. -/
def Op.withinAtoms (m : Molecule) : Op → Bool
  | Op.addAtom _ => true
  | Op.removeAtom index => m.removeAtomWithin index
  | Op.removeAtomHandle atom => m.removeAtomWithin atom.index
  | Op.addBond a b _ => decide (a.index < m.atomCount) && decide (b.index < m.atomCount)
  | Op.removeBond _ => true
  | Op.removeBondHandle _ => true
  | Op.removeBondBetween _ _ => true

/-- Every call of the sequence satisfies `Op.withinAtoms` on the state it is made on (the
sequence is followed as long as the calls succeed). -/
def Molecule.runWithinAtoms (m : Molecule) : List Op → Bool
  | [] => true
  | op :: ops =>
    Op.withinAtoms m op &&
      (match m.apply op with
       | none => true
       | some m1 => m1.runWithinAtoms ops)

/-- The bond scan of `removeAtom` erases the entry `p`: one of its endpoints, converted to
`unsigned char`, equals `index`. -/
def scanErases (index : Nat) (p : Nat × Nat) : Bool :=
  decide ((ucharPair p).1 = index) || decide ((ucharPair p).2 = index)

/-- The entries of `pairs` that the bond scan keeps. -/
def keptPairs (index : Nat) (pairs : List (Nat × Nat)) : List (Nat × Nat) :=
  pairs.filter (fun p => !scanErases index p)

/-- The entries of `orders` at the positions of the entries of `pairs` that the bond scan
keeps. -/
def keptOrders (index : Nat) : List (Nat × Nat) → List Nat → List Nat
  | p :: pairs, o :: orders =>
    if scanErases index p then keptOrders index pairs orders
    else o :: keptOrders index pairs orders
  | _, _ => []

/-- The sizes of the attribute vectors agree with the counts. -/
def Molecule.sizesAgree (m : Molecule) : Prop :=
  m.atomicNumbers.length = m.atomCount ∧ m.atomCount = m.graph.vertexCount ∧
    m.bondPairs.length = m.bondOrders.length ∧ m.bondOrders.length = m.bondCount

/-- Successive `setValue` calls with the given names and values, in call order. -/
def VariantMap.setValues (vm : VariantMap) : List (String × Variant) → VariantMap
  | [] => vm
  | kv :: rest => (vm.setValue kv.1 kv.2).setValues rest

/-- The bond pairs that the specification lets `removeAtom(index)` keep: the entries with
neither endpoint equal to `index`, in their stored order and with their stored values. -/
def specKeptPairs (index : Nat) (pairs : List (Nat × Nat)) : List (Nat × Nat) :=
  pairs.filter (fun p => decide (p.1 ≠ index ∧ p.2 ≠ index))

/-- The bond orders that the specification lets `removeAtom(index)` keep: the orders at the
positions of the pairs with neither endpoint equal to `index`. -/
def specKeptOrders (index : Nat) (pairs : List (Nat × Nat)) (orders : List Nat) : List Nat :=
  ((pairs.zip orders).filter (fun po => decide (po.1.1 ≠ index ∧ po.1.2 ≠ index))).map Prod.snd

/-- The `for` loop of `Molecule::removeAtom(size_t)` as in `removeAtomLoop`, with a record of
the entries it reads: the third component of the result lists, in the order of the
iterations, the element `m_bondPairs[i]` that each execution of the loop body examined. -/
def removeAtomLoopTrace (index : Nat) :
    Nat → Nat → List (Nat × Nat) → List Nat →
      Option (List (Nat × Nat) × List Nat × List (Nat × Nat))
  | 0, _, _, _ => none
  | fuel + 1, i, pairs, orders =>
    if h : i < pairs.length then
      let bondPair := ucharPair (pairs.get ⟨i, h⟩)
      if bondPair.1 = index ∨ bondPair.2 = index then
        if i < orders.length then
          (removeAtomLoopTrace index fuel (sizeInc (sizeDec i)) (pairs.eraseIdx i)
            (orders.eraseIdx i)).map (fun r => (r.1, r.2.1, pairs.get ⟨i, h⟩ :: r.2.2))
        else none
      else
        (removeAtomLoopTrace index fuel (sizeInc i) pairs orders).map
          (fun r => (r.1, r.2.1, pairs.get ⟨i, h⟩ :: r.2.2))
    else some (pairs, orders, [])

/-! ## Auxiliary facts -/

theorem sizeInc_of_lt {i : Nat} (h : i + 1 < SIZE_MOD) : sizeInc i = i + 1 := by
  unfold sizeInc
  exact Nat.mod_eq_of_lt h

theorem sizeInc_sizeDec {i : Nat} (h : i < SIZE_MOD) : sizeInc (sizeDec i) = i := by
  unfold sizeInc sizeDec SIZE_MOD at *
  omega

theorem eraseIdx_length_append {α : Type} (pre : List α) (x : α) (rest : List α) :
    (pre ++ x :: rest).eraseIdx pre.length = pre ++ rest := by
  induction pre with
  | nil => rfl
  | cons y ys ih => simp [List.eraseIdx, ih]

theorem keptPairs_cons (index : Nat) (p : Nat × Nat) (rest : List (Nat × Nat)) :
    keptPairs index (p :: rest) =
      if scanErases index p then keptPairs index rest else p :: keptPairs index rest := by
  unfold keptPairs
  cases h : scanErases index p <;> simp [List.filter, h]

theorem scanErases_iff (index : Nat) (p : Nat × Nat) :
    scanErases index p = true ↔ ((ucharPair p).1 = index ∨ (ucharPair p).2 = index) := by
  simp [scanErases]

/-- The bond scan, started at position `pre.length` of `pre ++ rest`, keeps `pre` and
filters `rest`. -/
theorem removeAtomLoop_append (index : Nat) :
    ∀ (rest : List (Nat × Nat)) (restO : List Nat) (pre : List (Nat × Nat)) (preO : List Nat)
      (fuel : Nat),
      pre.length = preO.length → rest.length = restO.length →
      pre.length + rest.length < SIZE_MOD → rest.length < fuel →
      removeAtomLoop index fuel pre.length (pre ++ rest) (preO ++ restO)
        = some (pre ++ keptPairs index rest, preO ++ keptOrders index rest restO) := by
  intro rest
  induction rest with
  | nil =>
    intro restO pre preO fuel _ hr _ hf
    cases fuel with
    | zero => simp at hf
    | succ f =>
      cases restO with
      | nil => simp [removeAtomLoop, keptPairs, keptOrders]
      | cons o os => simp at hr
  | cons p rest ih =>
    intro restO pre preO fuel hp hr hsz hf
    cases restO with
    | nil => simp at hr
    | cons o restO =>
      cases fuel with
      | zero => simp at hf
      | succ f =>
        have hr1 : rest.length = restO.length := by simpa using hr
        have hsz1 : pre.length + rest.length + 1 < SIZE_MOD := by
          simp only [List.length_cons] at hsz; omega
        have hf1 : rest.length < f := by
          simp only [List.length_cons] at hf; omega
        have hlt : pre.length < (pre ++ p :: rest).length := by simp
        have hget : (pre ++ p :: rest).get ⟨pre.length, hlt⟩ = p := by
          rw [List.get_eq_getElem, List.getElem_append_right (Nat.le_refl _)]
          simp
        rw [removeAtomLoop, dif_pos hlt]
        simp only [hget]
        by_cases hm : (ucharPair p).1 = index ∨ (ucharPair p).2 = index
        · have hlo : pre.length < (preO ++ o :: restO).length := by simp [hp]
          rw [if_pos hm, if_pos hlo, eraseIdx_length_append]
          rw [hp, eraseIdx_length_append, ← hp, sizeInc_sizeDec (by omega)]
          rw [ih restO pre preO f hp hr1 (by omega) hf1]
          have hs : scanErases index p = true := (scanErases_iff index p).2 hm
          simp [keptPairs_cons, keptOrders, hs]
        · rw [if_neg hm, sizeInc_of_lt (by omega)]
          have h := ih restO (pre ++ [p]) (preO ++ [o]) f (by simp [hp]) hr1
            (by simp only [List.length_append, List.length_singleton]; omega) hf1
          simp only [List.length_append, List.length_singleton, List.append_assoc,
            List.singleton_append] at h
          rw [h]
          have hs : scanErases index p = false := by
            cases hc : scanErases index p
            · rfl
            · exact absurd ((scanErases_iff index p).1 hc) hm
          simp [keptPairs_cons, keptOrders, hs]

/-- The bond scan of `removeAtom`, run from counter `0` with the budget `removeAtom` gives
it, ends and filters both vectors. -/
theorem removeAtomLoop_eq (index : Nat) (pairs : List (Nat × Nat)) (orders : List Nat)
    (hlen : pairs.length = orders.length) (hsz : pairs.length < SIZE_MOD) :
    removeAtomLoop index (pairs.length + 1) 0 pairs orders
      = some (keptPairs index pairs, keptOrders index pairs orders) := by
  have h := removeAtomLoop_append index pairs orders [] [] (pairs.length + 1) rfl hlen
    (by simpa using hsz) (Nat.lt_succ_self _)
  simpa using h

/-- The bond scan keeps the two vectors at equal length, whatever its budget and start. -/
theorem removeAtomLoop_length (index : Nat) :
    ∀ (fuel i : Nat) (pairs : List (Nat × Nat)) (orders : List Nat)
      (r : List (Nat × Nat) × List Nat),
      pairs.length = orders.length →
      removeAtomLoop index fuel i pairs orders = some r → r.1.length = r.2.length := by
  intro fuel
  induction fuel with
  | zero => intro i pairs orders r _ h; simp [removeAtomLoop] at h
  | succ f ih =>
    intro i pairs orders r hlen h
    rw [removeAtomLoop] at h
    by_cases hi : i < pairs.length
    · rw [dif_pos hi] at h
      by_cases hm : (ucharPair (pairs.get ⟨i, hi⟩)).1 = index ∨
          (ucharPair (pairs.get ⟨i, hi⟩)).2 = index
      · simp only [hm, if_true] at h
        by_cases hio : i < orders.length
        · rw [if_pos hio] at h
          refine ih _ _ _ r ?_ h
          rw [List.length_eraseIdx, List.length_eraseIdx]
          simp [hi, hio, hlen]
        · rw [if_neg hio] at h
          simp at h
      · simp only [hm, if_false] at h
        exact ih _ _ _ r hlen h
    · rw [dif_neg hi] at h
      simp only [Option.some.injEq] at h
      subst h
      exact hlen

/-! ### `std::find` -/

theorem find_le_length (xs : List (Nat × Nat)) (v : Nat × Nat) : find xs v ≤ xs.length := by
  induction xs with
  | nil => simp [find]
  | cons x xs ih =>
    by_cases h : x = v
    · simp [find, h]
    · simp [find, h, ih]

theorem find_lt_of_mem {xs : List (Nat × Nat)} {v : Nat × Nat} (h : v ∈ xs) :
    find xs v < xs.length := by
  induction xs with
  | nil => simp at h
  | cons x xs ih =>
    by_cases hx : x = v
    · simp [find, hx]
    · have hv : v ∈ xs := by
        rcases List.mem_cons.1 h with h1 | h1
        · exact absurd h1.symm hx
        · exact h1
      simp [find, hx, ih hv]

theorem find_eq_length_of_not_mem {xs : List (Nat × Nat)} {v : Nat × Nat} (h : v ∉ xs) :
    find xs v = xs.length := by
  induction xs with
  | nil => simp [find]
  | cons x xs ih =>
    have hx : x ≠ v := fun e => h (by simp [e])
    have hv : v ∉ xs := fun e => h (List.mem_cons_of_mem _ e)
    simp [find, hx, ih hv]

theorem find_getElem? {xs : List (Nat × Nat)} {v : Nat × Nat} (h : v ∈ xs) :
    xs[find xs v]? = some v := by
  induction xs with
  | nil => simp at h
  | cons x xs ih =>
    by_cases hx : x = v
    · simp [find, hx]
    · have hv : v ∈ xs := by
        rcases List.mem_cons.1 h with h1 | h1
        · exact absurd h1.symm hx
        · exact h1
      simp [find, hx, ih hv]

theorem find_least (xs : List (Nat × Nat)) (v : Nat × Nat) :
    ∀ j, j < find xs v → xs[j]? ≠ some v := by
  induction xs with
  | nil => intro j hj; simp [find] at hj
  | cons x xs ih =>
    intro j hj
    by_cases hx : x = v
    · simp [find, hx] at hj
    · simp only [find, hx, if_false] at hj
      cases j with
      | zero => simpa using hx
      | succ k => simpa using ih k (by omega)

theorem find_append_of_mem {xs : List (Nat × Nat)} {v : Nat × Nat} (ys : List (Nat × Nat))
    (h : v ∈ xs) : find (xs ++ ys) v = find xs v := by
  induction xs with
  | nil => simp at h
  | cons x xs ih =>
    by_cases hx : x = v
    · simp [find, hx]
    · have hv : v ∈ xs := by
        rcases List.mem_cons.1 h with h1 | h1
        · exact absurd h1.symm hx
        · exact h1
      simp [find, hx, ih hv]

theorem find_append_self_of_not_mem {xs : List (Nat × Nat)} {v : Nat × Nat} (h : v ∉ xs) :
    find (xs ++ [v]) v = xs.length := by
  induction xs with
  | nil => simp [find]
  | cons x xs ih =>
    have hx : x ≠ v := fun e => h (by simp [e])
    have hv : v ∉ xs := fun e => h (List.mem_cons_of_mem _ e)
    simp [find, hx, ih hv]

/-! ### The member functions, one by one -/

theorem addBond_eq_some {m : Molecule} {a b : Atom} {bondOrder : Nat} {r : Molecule × Bond}
    (h : m.addBond a b bondOrder = some r) :
    (a.isValid = true ∧ a.molecule = some m.addr) ∧
    (b.isValid = true ∧ b.molecule = some m.addr) ∧
    r.1 = { m with m_graph := m.m_graph.addEdge a.index b.index,
                   m_bondPairs := m.m_bondPairs ++ [(a.index, b.index)],
                   m_bondOrders := m.m_bondOrders ++ [bondOrder] } ∧
    r.2 = { m_molecule := some m.addr, m_index := m.m_bondPairs.length } := by
  unfold Molecule.addBond at h
  by_cases ha : a.isValid = true ∧ a.molecule = some m.addr
  · by_cases hb : b.isValid = true ∧ b.molecule = some m.addr
    · rw [if_pos ha, if_pos hb] at h
      simp only [Option.some.injEq] at h
      subst h
      refine ⟨ha, hb, rfl, ?_⟩
      simp
    · rw [if_pos ha, if_neg hb] at h
      simp at h
  · rw [if_neg ha] at h
    simp at h

theorem removeBond_eq_some {m m' : Molecule} {index : Nat} (h : m.removeBond index = some m') :
    ∃ hi : index < m.m_bondPairs.length, index < m.m_bondOrders.length ∧
      m' = { m with
        m_graph := m.m_graph.removeEdge (ucharPair (m.m_bondPairs.get ⟨index, hi⟩)).1
          (ucharPair (m.m_bondPairs.get ⟨index, hi⟩)).2,
        m_bondPairs := m.m_bondPairs.eraseIdx index,
        m_bondOrders := m.m_bondOrders.eraseIdx index } := by
  unfold Molecule.removeBond at h
  by_cases hi : index < m.bondCount
  · rw [dif_pos hi] at h
    by_cases ho : index < m.m_bondOrders.length
    · simp only [ho, if_true, Option.some.injEq] at h
      exact ⟨hi, ho, h.symm⟩
    · simp [ho] at h
  · rw [dif_neg hi] at h
    simp at h

theorem removeBond_of_lt {m : Molecule} {index : Nat} (hi : index < m.m_bondPairs.length)
    (ho : index < m.m_bondOrders.length) :
    m.removeBond index = some { m with
        m_graph := m.m_graph.removeEdge (ucharPair (m.m_bondPairs.get ⟨index, hi⟩)).1
          (ucharPair (m.m_bondPairs.get ⟨index, hi⟩)).2,
        m_bondPairs := m.m_bondPairs.eraseIdx index,
        m_bondOrders := m.m_bondOrders.eraseIdx index } := by
  unfold Molecule.removeBond
  have hi' : index < m.bondCount := hi
  rw [dif_pos hi']
  simp [ho]

theorem removeBondHandle_eq_some {m m' : Molecule} {bond : Bond}
    (h : m.removeBondHandle bond = some m') : m.removeBond bond.index = some m' := by
  unfold Molecule.removeBondHandle at h
  by_cases hb : bond.isValid = true ∧ bond.molecule = some m.addr
  · rwa [if_pos hb] at h
  · rw [if_neg hb] at h
    simp at h

theorem removeBondBetween_eq_some {m m' : Molecule} {a b : Atom}
    (h : m.removeBondBetween a b = some m') : ∃ index, m.removeBond index = some m' := by
  unfold Molecule.removeBondBetween at h
  by_cases ha : a.isValid = true ∧ a.molecule = some m.addr
  · by_cases hb : b.isValid = true ∧ b.molecule = some m.addr
    · rw [if_pos ha, if_pos hb] at h
      cases hbd : m.bond a b with
      | none => rw [hbd] at h; simp at h
      | some bd =>
        rw [hbd] at h
        exact ⟨bd.index, removeBondHandle_eq_some h⟩
    · rw [if_pos ha, if_neg hb] at h
      simp at h
  · rw [if_neg ha] at h
    simp at h

theorem removeAtomBonds_eq_some {m m1 : Molecule} {index : Nat}
    (h : m.removeAtomBonds index = some m1) :
    ∃ r, removeAtomLoop index (m.m_bondPairs.length + 1) 0 m.m_bondPairs m.m_bondOrders = some r ∧
      m1 = { m with m_bondPairs := r.1, m_bondOrders := r.2 } := by
  unfold Molecule.removeAtomBonds at h
  cases hl : removeAtomLoop index (m.m_bondPairs.length + 1) 0 m.m_bondPairs m.m_bondOrders with
  | none => rw [hl] at h; simp at h
  | some r =>
    rw [hl] at h
    simp only [Option.some.injEq] at h
    exact ⟨r, rfl, h.symm⟩

theorem removeAtom_eq_some {m m' : Molecule} {index : Nat} (h : m.removeAtom index = some m') :
    index < m.size ∧ ∃ m1, m.removeAtomBonds index = some m1 ∧
      index < m1.m_atomicNumbers.length ∧
      m' = { m1 with m_graph := m1.m_graph.removeVertex index,
                     m_atomicNumbers := m1.m_atomicNumbers.eraseIdx index } := by
  unfold Molecule.removeAtom at h
  by_cases hi : index < m.size
  · rw [if_pos hi] at h
    cases hb : m.removeAtomBonds index with
    | none => rw [hb] at h; simp at h
    | some m1 =>
      rw [hb] at h
      by_cases hn : index < m1.m_atomicNumbers.length
      · simp only [hn, if_true, Option.some.injEq] at h
        exact ⟨hi, m1, rfl, hn, h.symm⟩
      · simp [hn] at h
  · rw [if_neg hi] at h
    simp at h

theorem removeAtomHandle_eq_some {m m' : Molecule} {atom : Atom}
    (h : m.removeAtomHandle atom = some m') : m.removeAtom atom.index = some m' := by
  unfold Molecule.removeAtomHandle at h
  by_cases hb : atom.isValid = true ∧ atom.molecule = some m.addr
  · rwa [if_pos hb] at h
  · rw [if_neg hb] at h
    simp at h

/-- A property kept by every successful call is kept by every successful sequence of calls. -/
theorem run_induction (P : Molecule → Prop)
    (hstep : ∀ (m : Molecule) (op : Op) (m' : Molecule), P m → m.apply op = some m' → P m') :
    ∀ (ops : List Op) (m m' : Molecule), P m → m.run ops = some m' → P m' := by
  intro ops
  induction ops with
  | nil =>
    intro m m' hP h
    simp only [Molecule.run, Option.some.injEq] at h
    exact h ▸ hP
  | cons op ops ih =>
    intro m m' hP h
    rw [Molecule.run] at h
    cases ha : m.apply op with
    | none => rw [ha] at h; simp at h
    | some m1 =>
      rw [ha] at h
      exact ih m1 m' (hstep m op m1 hP ha) h

/-- One successful call keeps the sizes of the attribute vectors in agreement with the
counts. -/
theorem apply_sizesAgree (m : Molecule) (op : Op) (m' : Molecule) (hinv : m.sizesAgree)
    (h : m.apply op = some m') : m'.sizesAgree := by
  obtain ⟨ha, -, hb, -⟩ := hinv
  simp only [Molecule.atomicNumbers, Molecule.atomCount, Molecule.bondPairs,
    Molecule.bondOrders, Graph.size] at ha hb
  have hrb : ∀ index, m.removeBond index = some m' → m'.sizesAgree := by
    intro index hr
    obtain ⟨hi, ho, rfl⟩ := removeBond_eq_some hr
    refine ⟨?_, rfl, ?_, ?_⟩
    · simpa [Molecule.atomicNumbers, Molecule.atomCount, Graph.size, Graph.removeEdge] using ha
    · simp only [Molecule.bondPairs, Molecule.bondOrders]
      rw [List.length_eraseIdx, List.length_eraseIdx]
      simp [hi, ho, hb]
    · simp only [Molecule.bondOrders, Molecule.bondCount]
      rw [List.length_eraseIdx, List.length_eraseIdx]
      simp [hi, ho, hb]
  have hra : ∀ index, m.removeAtom index = some m' → m'.sizesAgree := by
    intro index hr
    obtain ⟨hi, m1, h1, hn, rfl⟩ := removeAtom_eq_some hr
    obtain ⟨r, hl, rfl⟩ := removeAtomBonds_eq_some h1
    have hlen := removeAtomLoop_length index _ _ _ _ r hb hl
    simp only [Molecule.size, Graph.size] at hi
    refine ⟨?_, rfl, ?_, ?_⟩
    · simp only [Molecule.atomicNumbers, Molecule.atomCount, Graph.size, Graph.removeVertex]
      rw [List.length_eraseIdx, if_pos hn]
      simp only at hn ⊢
      omega
    · simpa [Molecule.bondPairs, Molecule.bondOrders] using hlen
    · simpa [Molecule.bondOrders, Molecule.bondCount] using hlen.symm
  cases op with
  | addAtom z =>
    simp only [Molecule.apply, Option.some.injEq] at h
    subst h
    refine ⟨?_, rfl, ?_, ?_⟩
    · simp [Molecule.atomicNumbers, Molecule.atomCount, Molecule.addAtom, Graph.addVertex,
        Graph.size, ha]
    · simpa [Molecule.bondPairs, Molecule.bondOrders, Molecule.addAtom] using hb
    · simpa [Molecule.bondOrders, Molecule.bondCount, Molecule.addAtom] using hb.symm
  | removeAtom index => exact hra index h
  | removeAtomHandle atom => exact hra _ (removeAtomHandle_eq_some h)
  | addBond a b bondOrder =>
    simp only [Molecule.apply] at h
    cases hr : m.addBond a b bondOrder with
    | none => rw [hr] at h; simp at h
    | some r =>
      rw [hr] at h
      simp only [Option.map_some', Option.some.injEq] at h
      obtain ⟨_, _, h1, _⟩ := addBond_eq_some hr
      rw [← h, h1]
      refine ⟨?_, rfl, ?_, ?_⟩
      · simpa [Molecule.atomicNumbers, Molecule.atomCount, Graph.size, Graph.addEdge] using ha
      · simp [Molecule.bondPairs, Molecule.bondOrders, hb]
      · simp [Molecule.bondOrders, Molecule.bondCount, hb]
  | removeBond index => exact hrb index h
  | removeBondHandle bond => exact hrb _ (removeBondHandle_eq_some h)
  | removeBondBetween a b =>
    obtain ⟨index, hr⟩ := removeBondBetween_eq_some h
    exact hrb index hr

/-- On a molecule whose vectors have matching sizes, `removeAtom(index)` with
`index < atomCount()` succeeds; the result is given field by field. -/
theorem removeAtom_of_sizes {m : Molecule} {index : Nat} (hi : index < m.atomCount)
    (ha : m.m_atomicNumbers.length = m.atomCount)
    (hb : m.m_bondPairs.length = m.m_bondOrders.length)
    (hsz : m.m_bondPairs.length < SIZE_MOD) :
    m.removeAtomBonds index = some { m with
        m_bondPairs := keptPairs index m.m_bondPairs,
        m_bondOrders := keptOrders index m.m_bondPairs m.m_bondOrders } ∧
    m.removeAtom index = some { m with
        m_graph := m.m_graph.removeVertex index,
        m_atomicNumbers := m.m_atomicNumbers.eraseIdx index,
        m_bondPairs := keptPairs index m.m_bondPairs,
        m_bondOrders := keptOrders index m.m_bondPairs m.m_bondOrders } := by
  have h1 : m.removeAtomBonds index = some { m with
      m_bondPairs := keptPairs index m.m_bondPairs,
      m_bondOrders := keptOrders index m.m_bondPairs m.m_bondOrders } := by
    unfold Molecule.removeAtomBonds
    rw [removeAtomLoop_eq index _ _ hb hsz]
  refine ⟨h1, ?_⟩
  unfold Molecule.removeAtom
  have hi' : index < m.size := hi
  rw [if_pos hi', h1]
  have hn : index < m.m_atomicNumbers.length := by rw [ha]; exact hi
  simp only [hn, if_true]

/-! ## The claims -/

/-- One successful call that satisfies `Op.withinAtoms`, made on a molecule whose vectors have
matching sizes within the range of `size_t`, keeps every stored bond endpoint below the atom
count and adds at most one bond. -/
theorem apply_endpointsInRange {m m' : Molecule} {op : Op} (hinv : m.endpointsInRange)
    (hs : m.sizesAgree) (hsz : m.bondCount < SIZE_MOD)
    (hw : Op.withinAtoms m op = true) (h : m.apply op = some m') :
    m'.endpointsInRange ∧ m'.bondCount ≤ m.bondCount + 1 := by
  have hrb : ∀ index, m.removeBond index = some m' →
      m'.endpointsInRange ∧ m'.bondCount ≤ m.bondCount + 1 := by
    intro index hr
    obtain ⟨hi, _, rfl⟩ := removeBond_eq_some hr
    constructor
    · intro p hp
      exact hinv p (List.mem_of_mem_eraseIdx hp)
    · simp only [Molecule.bondCount]
      have := List.length_eraseIdx_le m.m_bondPairs index
      omega
  have hra : ∀ index, m.removeAtomWithin index = true → m.removeAtom index = some m' →
      m'.endpointsInRange ∧ m'.bondCount ≤ m.bondCount + 1 := by
    intro index hg hr
    obtain ⟨hi, -⟩ := removeAtom_eq_some hr
    obtain ⟨-, h2⟩ := removeAtom_of_sizes hi hs.1 hs.2.2.1 hsz
    rw [h2] at hr
    simp only [Option.some.injEq] at hr
    subst hr
    simp only [Molecule.removeAtomWithin, List.all_eq_true] at hg
    simp only [Molecule.size, Graph.size] at hi
    constructor
    · intro p hp
      simp only [Molecule.bondPairs, keptPairs, List.mem_filter, Bool.not_eq_true'] at hp
      obtain ⟨hmem, hkeep⟩ := hp
      have hg1 := hg p hmem
      simp only [Bool.or_eq_true, Bool.and_eq_true, decide_eq_true_eq] at hg1
      simp only [Molecule.atomCount, Graph.size, Graph.removeVertex]
      rcases hg1 with ⟨h256, ht⟩ | ⟨h1, h2⟩
      · exfalso
        have hscan : scanErases index p = true := by
          rw [scanErases_iff]
          simp only [ucharPair, toUChar]
          rcases ht with ht | ht
          · left; rw [ht]; exact Nat.mod_eq_of_lt h256
          · right; rw [ht]; exact Nat.mod_eq_of_lt h256
        rw [hscan] at hkeep
        exact Bool.noConfusion hkeep
      · omega
    · simp only [Molecule.bondCount, keptPairs]
      have := List.length_filter_le (fun p => !scanErases index p) m.m_bondPairs
      omega
  cases op with
  | addAtom z =>
    simp only [Molecule.apply, Option.some.injEq] at h
    subst h
    constructor
    · intro p hp
      have := hinv p hp
      simp only [Molecule.atomCount, Molecule.addAtom, Graph.addVertex, Graph.size] at this ⊢
      omega
    · simp [Molecule.bondCount, Molecule.addAtom]
  | removeAtom index => exact hra index hw h
  | removeAtomHandle atom => exact hra atom.index hw (removeAtomHandle_eq_some h)
  | addBond a b bondOrder =>
    simp only [Molecule.apply] at h
    cases hr : m.addBond a b bondOrder with
    | none => rw [hr] at h; simp at h
    | some r =>
      rw [hr] at h
      simp only [Option.map_some', Option.some.injEq] at h
      obtain ⟨_, _, h1, _⟩ := addBond_eq_some hr
      rw [← h, h1]
      simp only [Op.withinAtoms, Bool.and_eq_true, decide_eq_true_eq] at hw
      constructor
      · intro p hp
        simp only [Molecule.bondPairs, List.mem_append, List.mem_singleton] at hp
        rcases hp with hp | hp
        · exact hinv p hp
        · subst hp
          exact hw
      · simp [Molecule.bondCount]
  | removeBond index => exact hrb index h
  | removeBondHandle bond => exact hrb _ (removeBondHandle_eq_some h)
  | removeBondBetween a b =>
    obtain ⟨index, hr⟩ := removeBondBetween_eq_some h
    exact hrb index hr

set_option maxRecDepth 100000 in
/-- C1 (counterexample). Three successful call sequences after which a stored endpoint is not
below `atomCount()`. After `addAtom`, `addBond(Atom(this, 0), Atom(this, 3))` the molecule has
one atom and stores the pair `(0, 3)`: `addBond` accepts any index, and this run alone
refutes the invariant. After three `addAtom` calls, `addBond(atom1, atom2)` and
`removeAtom(0)` it has two atoms and stores `(1, 2)`. After 301 `addAtom` calls,
`addBond(atom300, atom0)` and `removeAtom(300)` it has 300 atoms and stores `(300, 0)`. -/
theorem C1_endpoints_counterexample :
    ((Molecule.empty 1).run
        [Op.addAtom 6,
         Op.addBond { m_molecule := some 1, m_index := 0 } { m_molecule := some 1, m_index := 3 } 1]
      ).map (fun m => (m.bondPairs, m.atomCount)) = some ([(0, 3)], 1) ∧
    ¬ (∀ (ops : List Op) (m : Molecule),
        (Molecule.empty 1).run ops = some m → m.endpointsInRange) ∧
    ((Molecule.empty 1).run
        [Op.addAtom 6, Op.addAtom 1, Op.addAtom 8,
         Op.addBond { m_molecule := some 1, m_index := 1 } { m_molecule := some 1, m_index := 2 } 1,
         Op.removeAtom 0]).map (fun m => (m.bondPairs, m.atomCount)) = some ([(1, 2)], 2) ∧
    ((((Molecule.empty 1).addAtoms (List.replicate 301 6)).1.addBond
        { m_molecule := some 1, m_index := 300 } { m_molecule := some 1, m_index := 0 } 1).bind
      (fun r => r.1.removeAtom 300)).map
        (fun m => (m.bondPairs, m.atomCount)) = some ([(300, 0)], 300) := by
  refine ⟨by decide, ?_, by decide, by decide⟩
  intro hall
  have h := hall
    [Op.addAtom 6,
     Op.addBond { m_molecule := some 1, m_index := 0 } { m_molecule := some 1, m_index := 3 } 1]
    { addr := 1
      m_graph := { vertexCount := 1, edges := [(0, 3)],
                   calls := [GraphCall.addVertex, GraphCall.addEdge 0 3] }
      m_atomicNumbers := [6]
      m_bondPairs := [(0, 3)]
      m_bondOrders := [1]
      m_data := VariantMap.empty }
    (by decide) (0, 3) (by decide)
  simp [Molecule.atomCount, Graph.size] at h

/-- C1 (amended). Starting from the empty molecule, after every sequence of fewer than `2^64`
successful `addAtom`, `addBond`, `removeBond` and `removeAtom` calls (all overloads) in which
every `addBond` is given handles whose index is below `atomCount()` and every
`removeAtom(index)` is made when each stored bond pair either has an endpoint equal to
`index`, with `index < 256`, or has both endpoints below `index`, every entry `(x, y)` of
`bondPairs` satisfies `x < atomCount()` and `y < atomCount()`. -/
theorem C1_endpoints_in_range_of_guarded_calls (addr : Nat) (ops : List Op) (m : Molecule)
    (hrun : (Molecule.empty addr).run ops = some m)
    (hwithin : (Molecule.empty addr).runWithinAtoms ops = true)
    (hcalls : ops.length < SIZE_MOD) :
    ∀ p ∈ m.bondPairs, p.1 < m.atomCount ∧ p.2 < m.atomCount := by
  have key : ∀ (ops : List Op) (m0 m : Molecule), m0.endpointsInRange → m0.sizesAgree →
      m0.bondCount + ops.length < SIZE_MOD →
      m0.run ops = some m → m0.runWithinAtoms ops = true → m.endpointsInRange := by
    intro ops
    induction ops with
    | nil =>
      intro m0 m hinv _ _ h _
      simp only [Molecule.run, Option.some.injEq] at h
      exact h ▸ hinv
    | cons op ops ih =>
      intro m0 m hinv hs hsz h hw
      rw [Molecule.run] at h
      rw [Molecule.runWithinAtoms] at hw
      simp only [List.length_cons] at hsz
      cases ha : m0.apply op with
      | none => rw [ha] at h; simp at h
      | some m1 =>
        rw [ha] at h
        rw [ha] at hw
        simp only [Bool.and_eq_true] at hw
        obtain ⟨hinv1, hcount⟩ := apply_endpointsInRange hinv hs (by omega) hw.1 ha
        exact ih m1 m hinv1 (apply_sizesAgree m0 op m1 hs ha) (by omega) h hw.2
  have h0 : (Molecule.empty addr).sizesAgree := by
    simp [Molecule.sizesAgree, Molecule.empty, Molecule.atomicNumbers, Molecule.atomCount,
      Molecule.graph, Molecule.bondPairs, Molecule.bondOrders, Molecule.bondCount, Graph.empty,
      Graph.size]
  refine key ops (Molecule.empty addr) m ?_ h0 ?_ hrun hwithin
  · intro p hp
    simp [Molecule.bondPairs, Molecule.empty] at hp
  · simpa [Molecule.bondCount, Molecule.empty] using hcalls

/-- C1 (witness): three atoms, the bonds `(0, 1)` and `(2, 1)`, then `removeAtom(2)`: the bond
that touches atom 2 is erased and the bond `(0, 1)` stays, with two atoms left. -/
theorem C1_endpoints_in_range_of_guarded_calls_witness :
    Molecule.endpointsInRange
      { addr := 1
        m_graph := { vertexCount := 2, edges := [(0, 1)],
                     calls := [GraphCall.addVertex, GraphCall.addVertex, GraphCall.addVertex,
                               GraphCall.addEdge 0 1, GraphCall.addEdge 2 1,
                               GraphCall.removeVertex 2] }
        m_atomicNumbers := [6, 1]
        m_bondPairs := [(0, 1)]
        m_bondOrders := [1]
        m_data := VariantMap.empty } :=
  C1_endpoints_in_range_of_guarded_calls 1
    [Op.addAtom 6, Op.addAtom 1, Op.addAtom 8,
     Op.addBond { m_molecule := some 1, m_index := 0 } { m_molecule := some 1, m_index := 1 } 1,
     Op.addBond { m_molecule := some 1, m_index := 2 } { m_molecule := some 1, m_index := 1 } 2,
     Op.removeAtom 2]
    _ (by decide) (by decide) (by decide)

set_option maxRecDepth 100000 in
/-- C2 (the code at the failing input). On the molecule built by 301 `addAtom` calls and
`addBond(atom300, atom0)`, `removeAtom(300)` succeeds and leaves the bond pair `(300, 0)` in
`bondPairs` and its order in `bondOrders`: the scan compares `300 % 256 = 44` and `0` with
`300`. -/
theorem C2_removeAtom_300_keeps_bond :
    ((((Molecule.empty 1).addAtoms (List.replicate 301 6)).1.addBond
        { m_molecule := some 1, m_index := 300 } { m_molecule := some 1, m_index := 0 } 1).bind
      (fun r => r.1.removeAtom 300)).map
        (fun m => (m.bondPairs, m.bondOrders, m.atomCount)) = some ([(300, 0)], [1], 300) := by
  decide

/-- C3. Starting from the empty molecule, after every finite sequence of successful
`addAtom`, `removeAtom`, `addBond` and `removeBond` calls (all overloads), with the graph
behaving as its contract says, `len(atomicNumbers) == atomCount() ==` graph vertex count and
`len(bondPairs) == len(bondOrders) == bondCount()`. -/
theorem C3_size_invariant (addr : Nat) (ops : List Op) (m : Molecule)
    (hrun : (Molecule.empty addr).run ops = some m) :
    m.atomicNumbers.length = m.atomCount ∧ m.atomCount = m.graph.vertexCount ∧
      m.bondPairs.length = m.bondOrders.length ∧ m.bondOrders.length = m.bondCount := by
  have h0 : (Molecule.empty addr).sizesAgree := by
    simp [Molecule.sizesAgree, Molecule.empty, Molecule.atomicNumbers, Molecule.atomCount,
      Molecule.graph, Molecule.bondPairs, Molecule.bondOrders, Molecule.bondCount, Graph.empty,
      Graph.size]
  exact run_induction Molecule.sizesAgree apply_sizesAgree ops _ m h0 hrun

/-- C3 (witness): three atoms and three bonds are added, then the bond at index 1 and the
atom at index 0 are removed; two atoms and the bond pair `(1, 2)` remain. -/
theorem C3_size_invariant_witness :
    Molecule.sizesAgree
      { addr := 1
        m_graph := { vertexCount := 2, edges := [(0, 1)],
                     calls := [GraphCall.addVertex, GraphCall.addVertex, GraphCall.addVertex,
                               GraphCall.addEdge 0 1, GraphCall.addEdge 0 2,
                               GraphCall.addEdge 1 2, GraphCall.removeEdge 0 2,
                               GraphCall.removeVertex 0] }
        m_atomicNumbers := [1, 8]
        m_bondPairs := [(1, 2)]
        m_bondOrders := [1]
        m_data := VariantMap.empty } :=
  C3_size_invariant 1
    [Op.addAtom 6, Op.addAtom 1, Op.addAtom 8,
     Op.addBond { m_molecule := some 1, m_index := 0 } { m_molecule := some 1, m_index := 1 } 1,
     Op.addBond { m_molecule := some 1, m_index := 0 } { m_molecule := some 1, m_index := 2 } 2,
     Op.addBond { m_molecule := some 1, m_index := 1 } { m_molecule := some 1, m_index := 2 } 1,
     Op.removeBond 1, Op.removeAtom 0] _ (by decide)

/-- C4 (counterexample). With two atoms and the bond `(0, 1)` already stored at index 0, a
second `addBond(atom0, atom1, 2)` returns the handle with index 1, and the immediately
following `bond(atom0, atom1)` returns the handle with index 0. -/
theorem C4_addBond_bond_counterexample :
    (((Molecule.empty 1).run
        [Op.addAtom 6, Op.addAtom 1,
         Op.addBond { m_molecule := some 1, m_index := 0 } { m_molecule := some 1, m_index := 1 } 1]
      ).bind (fun m =>
        (m.addBond { m_molecule := some 1, m_index := 0 } { m_molecule := some 1, m_index := 1 } 2
          ).map (fun r =>
            (r.2.index,
             (r.1.bond { m_molecule := some 1, m_index := 0 }
                { m_molecule := some 1, m_index := 1 }).map Bond.index))))
      = some (1, some 0) := by
  decide

/-- C4 (amended). After a successful `addBond(a, b, order)`, the immediately following
`bond(a, b)` returns a valid handle whose index is at most the index returned by `addBond`;
the two indices are equal if and only if no entry of `bondPairs` was equal to
`(a.index, b.index)` before the `addBond` call. -/
theorem C4_addBond_then_bond (m : Molecule) (a b : Atom) (order : Nat) (m' : Molecule)
    (bd : Bond) (hadd : m.addBond a b order = some (m', bd)) :
    ∃ bd', m'.bond a b = some bd' ∧ bd'.isValid = true ∧ bd'.index ≤ bd.index ∧
      (bd'.index = bd.index ↔ (a.index, b.index) ∉ m.bondPairs) := by
  obtain ⟨ha, hb, h1, h2⟩ := addBond_eq_some hadd
  simp only at h1 h2
  subst h1 h2
  have hle := find_le_length m.m_bondPairs (a.index, b.index)
  by_cases hmem : (a.index, b.index) ∈ m.m_bondPairs
  · have hf := find_append_of_mem [(a.index, b.index)] hmem
    have hlt := find_lt_of_mem hmem
    refine ⟨{ m_molecule := some m.addr, m_index := find m.m_bondPairs (a.index, b.index) },
      ?_, rfl, ?_, ?_⟩
    · unfold Molecule.bond
      simp only [ha, hb, and_self, if_true, hf, List.length_append, List.length_singleton]
      rw [if_neg (by omega)]
    · simp only [Bond.index]; omega
    · simp only [Bond.index, Molecule.bondPairs]
      constructor
      · intro h; omega
      · intro h; exact absurd hmem h
  · have hf := find_append_self_of_not_mem hmem
    refine ⟨{ m_molecule := some m.addr, m_index := m.m_bondPairs.length }, ?_, rfl, ?_, ?_⟩
    · unfold Molecule.bond
      simp only [ha, hb, and_self, if_true, hf, List.length_append, List.length_singleton]
      rw [if_neg (by omega)]
    · simp [Bond.index]
    · simp [Bond.index, Molecule.bondPairs, hmem]

/-- C4 (witness): the first bond between atom 0 and atom 1 of a two-atom molecule. -/
theorem C4_addBond_then_bond_witness :
    ∃ bd', Molecule.bond
        { addr := 1
          m_graph := { vertexCount := 2, edges := [(0, 1)],
                       calls := [GraphCall.addVertex, GraphCall.addVertex,
                                 GraphCall.addEdge 0 1] }
          m_atomicNumbers := [6, 1]
          m_bondPairs := [(0, 1)]
          m_bondOrders := [1]
          m_data := VariantMap.empty }
        { m_molecule := some 1, m_index := 0 } { m_molecule := some 1, m_index := 1 } = some bd' ∧
      bd'.isValid = true ∧ bd'.index ≤ Bond.index { m_molecule := some 1, m_index := 0 } ∧
      (bd'.index = Bond.index { m_molecule := some 1, m_index := 0 } ↔
        (Atom.index { m_molecule := some 1, m_index := 0 },
          Atom.index { m_molecule := some 1, m_index := 1 }) ∉
          Molecule.bondPairs
            { addr := 1
              m_graph := { vertexCount := 2, edges := [],
                           calls := [GraphCall.addVertex, GraphCall.addVertex] }
              m_atomicNumbers := [6, 1]
              m_bondPairs := []
              m_bondOrders := []
              m_data := VariantMap.empty }) :=
  C4_addBond_then_bond
    { addr := 1
      m_graph := { vertexCount := 2, edges := [],
                   calls := [GraphCall.addVertex, GraphCall.addVertex] }
      m_atomicNumbers := [6, 1]
      m_bondPairs := []
      m_bondOrders := []
      m_data := VariantMap.empty }
    { m_molecule := some 1, m_index := 0 } { m_molecule := some 1, m_index := 1 } 1 _ _
    (by decide)

/-- Successive `addAtom` calls return consecutive indices, starting at the atom count. -/
theorem addAtoms_indices : ∀ (zs : List Nat) (m : Molecule),
    (m.addAtoms zs).2.map Atom.index = List.range' m.atomCount zs.length ∧
      (m.addAtoms zs).1.atomCount = m.atomCount + zs.length := by
  intro zs
  induction zs with
  | nil => intro m; simp [Molecule.addAtoms]
  | cons z zs ih =>
    intro m
    obtain ⟨h1, h2⟩ := ih (m.addAtom z).1
    have hc : (m.addAtom z).1.atomCount = m.atomCount + 1 := rfl
    have hi : (m.addAtom z).2.index = m.atomCount := rfl
    rw [hc] at h1 h2
    constructor
    · simp only [Molecule.addAtoms, List.map_cons, List.length_cons, List.range'_succ, h1, hi]
    · simp only [Molecule.addAtoms, List.length_cons, h2]
      omega

/-- C5. `addAtom(z)` on a molecule with `n` atoms returns a valid handle of this molecule
with index `n`, makes `atomCount()` equal `n + 1` and appends `z` to `atomicNumbers`, so that
`atomicNumbers[n] == z` and the earlier entries are unchanged; `k` successive `addAtom` calls
on an empty molecule return the indices `0, 1, ..., k-1` in call order and leave
`atomCount() == k`. -/
theorem C5_addAtom (m : Molecule) (z : Nat) (hinv : m.atomicNumbers.length = m.atomCount)
    (addr : Nat) (zs : List Nat) :
    (m.addAtom z).2.index = m.atomCount ∧
    (m.addAtom z).2.isValid = true ∧ (m.addAtom z).2.molecule = some m.addr ∧
    (m.addAtom z).1.atomCount = m.atomCount + 1 ∧
    (m.addAtom z).1.atomicNumbers = m.atomicNumbers ++ [z] ∧
    (m.addAtom z).1.atomicNumbers[m.atomCount]? = some z ∧
    (∀ j, j < m.atomCount → (m.addAtom z).1.atomicNumbers[j]? = m.atomicNumbers[j]?) ∧
    ((Molecule.empty addr).addAtoms zs).2.map Atom.index = List.range zs.length ∧
    ((Molecule.empty addr).addAtoms zs).1.atomCount = zs.length := by
  have happ : (m.addAtom z).1.atomicNumbers = m.atomicNumbers ++ [z] := rfl
  refine ⟨rfl, rfl, rfl, rfl, happ, ?_, ?_, ?_, ?_⟩
  · rw [happ, ← hinv]
    simp
  · intro j hj
    rw [happ, List.getElem?_append_left (by omega)]
  · have h := (addAtoms_indices zs (Molecule.empty addr)).1
    have h0 : (Molecule.empty addr).atomCount = 0 := rfl
    rw [h0] at h
    rw [h, List.range_eq_range']
  · have h := (addAtoms_indices zs (Molecule.empty addr)).2
    have h0 : (Molecule.empty addr).atomCount = 0 := rfl
    rw [h0] at h
    simpa using h

/-- C5 (witness): a hydrogen atom is added to a molecule that holds one carbon atom, and
three atoms are added to an empty molecule. -/
theorem C5_addAtom_witness :
    (Molecule.addAtom ((Molecule.empty 1).addAtom 6).1 1).2.index = 1 ∧
    (Molecule.addAtom ((Molecule.empty 1).addAtom 6).1 1).1.atomCount = 2 ∧
    (Molecule.addAtom ((Molecule.empty 1).addAtom 6).1 1).1.atomicNumbers = [6, 1] ∧
    ((Molecule.empty 1).addAtoms [6, 1, 8]).2.map Atom.index = [0, 1, 2] ∧
    ((Molecule.empty 1).addAtoms [6, 1, 8]).1.atomCount = 3 :=
  have h := C5_addAtom ((Molecule.empty 1).addAtom 6).1 1 (by decide) 1 [6, 1, 8]
  ⟨h.1, h.2.2.2.1, h.2.2.2.2.1, h.2.2.2.2.2.2.2.1, h.2.2.2.2.2.2.2.2⟩

/-- C6 (the code at the failing input). On the molecule built by `addAtom`, `addAtom`,
`addBond(atom0, atom1)`, the bond scan of `removeAtom(0)` empties `bondPairs` and leaves the
graph with the edge `(0, 1)` and without a `removeEdge` call; that graph is the one
`removeVertex(0)` is then called on, and the only mutating graph call recorded for
`removeAtom(0)` is `removeVertex(0)`. On the same molecule `removeBond(0)` does call
`removeEdge(0, 1)` before it erases the entry. -/
theorem C6_removeAtom_leaves_graph_edge :
    (((Molecule.empty 1).run
        [Op.addAtom 6, Op.addAtom 1,
         Op.addBond { m_molecule := some 1, m_index := 0 } { m_molecule := some 1, m_index := 1 } 1]
      ).bind (fun m => m.removeAtomBonds 0)).map
        (fun m1 => (m1.bondPairs, m1.graph.edges, m1.graph.calls))
      = some ([], [(0, 1)],
          [GraphCall.addVertex, GraphCall.addVertex, GraphCall.addEdge 0 1]) ∧
    (((Molecule.empty 1).run
        [Op.addAtom 6, Op.addAtom 1,
         Op.addBond { m_molecule := some 1, m_index := 0 } { m_molecule := some 1, m_index := 1 } 1]
      ).bind (fun m => m.removeAtom 0)).map (fun m' => m'.graph.calls)
      = some [GraphCall.addVertex, GraphCall.addVertex, GraphCall.addEdge 0 1,
          GraphCall.removeVertex 0] ∧
    (((Molecule.empty 1).run
        [Op.addAtom 6, Op.addAtom 1,
         Op.addBond { m_molecule := some 1, m_index := 0 } { m_molecule := some 1, m_index := 1 } 1]
      ).bind (fun m => m.removeBond 0)).map
        (fun m' => (m'.bondPairs, m'.graph.edges, m'.graph.calls))
      = some ([], [],
          [GraphCall.addVertex, GraphCall.addVertex, GraphCall.addEdge 0 1,
           GraphCall.removeEdge 0 1]) := by
  decide

set_option maxRecDepth 100000 in
/-- C7 (the code at the failing input). On the molecule built by 301 `addAtom` calls and
`addBond(atom300, atom0)`, `removeBond(0)` succeeds, its call on the graph is
`removeEdge(44, 0)` (`300 % 256 = 44`), not `removeEdge(300, 0)`, and the graph modelled from
its contract keeps the edge `(300, 0)`. -/
theorem C7_removeBond_truncates_endpoints :
    ((((Molecule.empty 1).addAtoms (List.replicate 301 6)).1.addBond
        { m_molecule := some 1, m_index := 300 } { m_molecule := some 1, m_index := 0 } 1).bind
      (fun r => r.1.removeBond 0)).map
        (fun m => (m.graph.calls.getLast?, m.graph.edges, m.bondPairs))
      = some (some (GraphCall.removeEdge 44 0), [(300, 0)], []) := by
  decide

/-- C8. For every molecule whose bond vectors have the same size and every
`index < bondCount()`, `removeBond(index)` succeeds; `bondPairs` and `bondOrders` are their
prior values with exactly the element at position `index` erased (entries below `index` keep
their position, entries above it move down by one), `bondCount()` decreases by exactly 1, and
`atomicNumbers` and `atomCount()` are unchanged. -/
theorem C8_removeBond_erases_one (m : Molecule) (index : Nat) (hi : index < m.bondCount)
    (hlen : m.bondPairs.length = m.bondOrders.length) :
    ∃ m', m.removeBond index = some m' ∧
      m'.bondPairs = m.bondPairs.take index ++ m.bondPairs.drop (index + 1) ∧
      m'.bondOrders = m.bondOrders.take index ++ m.bondOrders.drop (index + 1) ∧
      (∀ j, j < index → m'.bondPairs[j]? = m.bondPairs[j]? ∧
        m'.bondOrders[j]? = m.bondOrders[j]?) ∧
      (∀ j, index ≤ j → m'.bondPairs[j]? = m.bondPairs[j + 1]? ∧
        m'.bondOrders[j]? = m.bondOrders[j + 1]?) ∧
      m'.bondCount + 1 = m.bondCount ∧ m'.bondOrders.length + 1 = m.bondOrders.length ∧
      m'.atomicNumbers = m.atomicNumbers ∧ m'.atomCount = m.atomCount := by
  have hp : index < m.m_bondPairs.length := hi
  have ho : index < m.m_bondOrders.length := by
    have : m.m_bondPairs.length = m.m_bondOrders.length := hlen
    omega
  refine ⟨_, removeBond_of_lt hp ho, ?_, ?_, ?_, ?_, ?_, ?_, rfl, rfl⟩
  · simp only [Molecule.bondPairs]
    exact List.eraseIdx_eq_take_drop_succ _ _
  · simp only [Molecule.bondOrders]
    exact List.eraseIdx_eq_take_drop_succ _ _
  · intro j hj
    simp only [Molecule.bondPairs, Molecule.bondOrders]
    exact ⟨List.getElem?_eraseIdx_of_lt _ _ _ hj, List.getElem?_eraseIdx_of_lt _ _ _ hj⟩
  · intro j hj
    simp only [Molecule.bondPairs, Molecule.bondOrders]
    exact ⟨List.getElem?_eraseIdx_of_ge _ _ _ hj, List.getElem?_eraseIdx_of_ge _ _ _ hj⟩
  · simp only [Molecule.bondCount]
    rw [List.length_eraseIdx, if_pos hp]
    omega
  · simp only [Molecule.bondOrders]
    rw [List.length_eraseIdx, if_pos ho]
    omega

/-- C8 (witness): the middle one of three bonds is removed. -/
theorem C8_removeBond_erases_one_witness :
    ∃ m', Molecule.removeBond
        { addr := 1
          m_graph := { vertexCount := 3, edges := [(0, 1), (0, 2), (1, 2)], calls := [] }
          m_atomicNumbers := [6, 1, 8]
          m_bondPairs := [(0, 1), (0, 2), (1, 2)]
          m_bondOrders := [1, 2, 3]
          m_data := VariantMap.empty } 1 = some m' ∧
      m'.bondPairs = [(0, 1), (1, 2)] ∧ m'.bondOrders = [1, 3] ∧
      m'.bondCount + 1 = 3 ∧ m'.atomicNumbers = [6, 1, 8] ∧ m'.atomCount = 3 :=
  have h := C8_removeBond_erases_one
    { addr := 1
      m_graph := { vertexCount := 3, edges := [(0, 1), (0, 2), (1, 2)], calls := [] }
      m_atomicNumbers := [6, 1, 8]
      m_bondPairs := [(0, 1), (0, 2), (1, 2)]
      m_bondOrders := [1, 2, 3]
      m_data := VariantMap.empty } 1 (by decide) (by decide)
  h.imp fun _ hm => ⟨hm.1, hm.2.1, hm.2.2.1, hm.2.2.2.2.2.1, hm.2.2.2.2.2.2.2.1,
    hm.2.2.2.2.2.2.2.2⟩

/-- C9. For valid handles `a`, `b` owned by the molecule, if some entry of `bondPairs` equals
the ordered pair `(a.index, b.index)`, then `bond(a, b)` returns a valid handle of this
molecule whose index is the least `i` with `bondPairs[i] == (a.index, b.index)`. -/
theorem C9_bond_returns_first_match (m : Molecule) (a b : Atom)
    (ha : a.isValid = true ∧ a.molecule = some m.addr)
    (hb : b.isValid = true ∧ b.molecule = some m.addr)
    (hmem : (a.index, b.index) ∈ m.bondPairs) :
    ∃ bd, m.bond a b = some bd ∧ bd.isValid = true ∧ bd.molecule = some m.addr ∧
      bd.index < m.bondCount ∧
      m.bondPairs[bd.index]? = some (a.index, b.index) ∧
      ∀ j, j < bd.index → m.bondPairs[j]? ≠ some (a.index, b.index) := by
  have hlt : find m.m_bondPairs (a.index, b.index) < m.m_bondPairs.length := find_lt_of_mem hmem
  refine ⟨{ m_molecule := some m.addr, m_index := find m.m_bondPairs (a.index, b.index) },
    ?_, rfl, rfl, hlt, find_getElem? hmem, find_least _ _⟩
  unfold Molecule.bond
  rw [if_pos ha, if_pos hb]
  simp only
  rw [if_neg (by omega)]

/-- C9 (witness): with the pairs `(1, 0), (0, 1), (0, 1)` stored, `bond(atom0, atom1)` is the
bond with index 1. -/
theorem C9_bond_returns_first_match_witness :
    ∃ bd, Molecule.bond
        { addr := 1
          m_graph := { vertexCount := 2, edges := [(1, 0), (0, 1), (0, 1)], calls := [] }
          m_atomicNumbers := [6, 1]
          m_bondPairs := [(1, 0), (0, 1), (0, 1)]
          m_bondOrders := [1, 2, 3]
          m_data := VariantMap.empty }
        { m_molecule := some 1, m_index := 0 } { m_molecule := some 1, m_index := 1 } = some bd ∧
      bd.isValid = true ∧ bd.molecule = some 1 ∧ bd.index < 3 ∧
      [((1 : Nat), (0 : Nat)), (0, 1), (0, 1)][bd.index]? = some (0, 1) ∧
      ∀ j, j < bd.index → [((1 : Nat), (0 : Nat)), (0, 1), (0, 1)][j]? ≠ some (0, 1) :=
  C9_bond_returns_first_match
    { addr := 1
      m_graph := { vertexCount := 2, edges := [(1, 0), (0, 1), (0, 1)], calls := [] }
      m_atomicNumbers := [6, 1]
      m_bondPairs := [(1, 0), (0, 1), (0, 1)]
      m_bondOrders := [1, 2, 3]
      m_data := VariantMap.empty }
    { m_molecule := some 1, m_index := 0 } { m_molecule := some 1, m_index := 1 }
    (by decide) (by decide) (by decide)

/-- C10. For valid handles `a`, `b` owned by the molecule, `bond(a, b)` does not fail, and the
handle it returns is invalid if and only if no entry of `bondPairs` equals the ordered pair
`(a.index, b.index)`; in particular it is invalid when `a.index != b.index` and every stored
pair is the reversed pair `(b.index, a.index)`. -/
theorem C10_bond_invalid_iff_absent (m : Molecule) (a b : Atom)
    (ha : a.isValid = true ∧ a.molecule = some m.addr)
    (hb : b.isValid = true ∧ b.molecule = some m.addr) :
    ∃ bd, m.bond a b = some bd ∧
      (bd.isValid = false ↔ (a.index, b.index) ∉ m.bondPairs) ∧
      (a.index ≠ b.index → (∀ p ∈ m.bondPairs, p = (b.index, a.index)) →
        bd.isValid = false) := by
  have key : ∃ bd, m.bond a b = some bd ∧
      (bd.isValid = false ↔ (a.index, b.index) ∉ m.bondPairs) := by
    by_cases hmem : (a.index, b.index) ∈ m.m_bondPairs
    · have hlt := find_lt_of_mem hmem
      refine ⟨{ m_molecule := some m.addr,
                m_index := find m.m_bondPairs (a.index, b.index) }, ?_, ?_⟩
      · unfold Molecule.bond
        rw [if_pos ha, if_pos hb]
        simp only
        rw [if_neg (by omega)]
      · simp [Bond.isValid, Molecule.bondPairs, hmem]
    · have he := find_eq_length_of_not_mem hmem
      refine ⟨Bond.null, ?_, ?_⟩
      · unfold Molecule.bond
        rw [if_pos ha, if_pos hb]
        simp only
        rw [if_pos he]
      · simp [Bond.isValid, Bond.null, Molecule.bondPairs, hmem]
  obtain ⟨bd, h1, h2⟩ := key
  refine ⟨bd, h1, h2, ?_⟩
  intro hne hall
  refine h2.2 ?_
  intro hmem
  have := hall _ hmem
  simp only [Prod.mk.injEq] at this
  exact hne this.1

/-- C10 (witness): only the pair `(1, 0)` is stored and `bond(atom0, atom1)` is asked for. -/
theorem C10_bond_invalid_iff_absent_witness :
    ∃ bd, Molecule.bond
        { addr := 1
          m_graph := { vertexCount := 2, edges := [(1, 0)], calls := [] }
          m_atomicNumbers := [6, 1]
          m_bondPairs := [(1, 0)]
          m_bondOrders := [1]
          m_data := VariantMap.empty }
        { m_molecule := some 1, m_index := 0 } { m_molecule := some 1, m_index := 1 } = some bd ∧
      bd.isValid = false :=
  have h := C10_bond_invalid_iff_absent
    { addr := 1
      m_graph := { vertexCount := 2, edges := [(1, 0)], calls := [] }
      m_atomicNumbers := [6, 1]
      m_bondPairs := [(1, 0)]
      m_bondOrders := [1]
      m_data := VariantMap.empty }
    { m_molecule := some 1, m_index := 0 } { m_molecule := some 1, m_index := 1 }
    (by decide) (by decide)
  h.imp fun _ hm => ⟨hm.1, hm.2.2 (by decide) (by decide)⟩

/-- C11. For valid handles `a`, `b` owned by a molecule whose bond vectors have the same size,
the pair form `removeBond(a, b)` fails if and only if no entry of `bondPairs` equals the
ordered pair `(a.index, b.index)`, also when every stored pair is the reversed pair; when
such an entry exists it succeeds and its result is the result of `removeBond(i)` for the
least `i` with `bondPairs[i] == (a.index, b.index)`. -/
theorem C11_removeBond_pair_form (m : Molecule) (a b : Atom)
    (ha : a.isValid = true ∧ a.molecule = some m.addr)
    (hb : b.isValid = true ∧ b.molecule = some m.addr)
    (hlen : m.bondPairs.length = m.bondOrders.length) :
    (m.removeBondBetween a b = none ↔ (a.index, b.index) ∉ m.bondPairs) ∧
    (a.index ≠ b.index → (∀ p ∈ m.bondPairs, p = (b.index, a.index)) →
      m.removeBondBetween a b = none) ∧
    ((a.index, b.index) ∈ m.bondPairs →
      ∃ i m', i < m.bondCount ∧ m.bondPairs[i]? = some (a.index, b.index) ∧
        (∀ j, j < i → m.bondPairs[j]? ≠ some (a.index, b.index)) ∧
        m.removeBond i = some m' ∧ m.removeBondBetween a b = some m') := by
  have hnot : (a.index, b.index) ∉ m.bondPairs → m.removeBondBetween a b = none := by
    intro hmem
    have he : find m.m_bondPairs (a.index, b.index) = m.m_bondPairs.length :=
      find_eq_length_of_not_mem hmem
    have hbd : m.bond a b = some Bond.null := by
      unfold Molecule.bond
      rw [if_pos ha, if_pos hb]
      simp only
      rw [if_pos he]
    unfold Molecule.removeBondBetween
    rw [if_pos ha, if_pos hb, hbd]
    simp [Molecule.removeBondHandle, Bond.null, Bond.isValid]
  have hmemcase : (a.index, b.index) ∈ m.bondPairs →
      ∃ i m', i < m.bondCount ∧ m.bondPairs[i]? = some (a.index, b.index) ∧
        (∀ j, j < i → m.bondPairs[j]? ≠ some (a.index, b.index)) ∧
        m.removeBond i = some m' ∧ m.removeBondBetween a b = some m' := by
    intro hmem
    have hlt : find m.m_bondPairs (a.index, b.index) < m.m_bondPairs.length :=
      find_lt_of_mem hmem
    have ho : find m.m_bondPairs (a.index, b.index) < m.m_bondOrders.length := by
      have : m.m_bondPairs.length = m.m_bondOrders.length := hlen
      omega
    have hbd : m.bond a b =
        some (Bond.mk (some m.addr) (find m.m_bondPairs (a.index, b.index))) := by
      unfold Molecule.bond
      rw [if_pos ha, if_pos hb]
      simp only
      rw [if_neg (by omega)]
    refine ⟨find m.m_bondPairs (a.index, b.index), _, hlt, find_getElem? hmem,
      find_least _ _, removeBond_of_lt hlt ho, ?_⟩
    unfold Molecule.removeBondBetween
    rw [if_pos ha, if_pos hb, hbd]
    simp only [Molecule.removeBondHandle, Bond.isValid, Bond.molecule, Bond.index,
      Option.isSome_some, and_self, if_true]
    exact removeBond_of_lt hlt ho
  refine ⟨⟨?_, hnot⟩, ?_, hmemcase⟩
  · intro hnone hmem
    obtain ⟨i, m', _, _, _, _, hsome⟩ := hmemcase hmem
    rw [hnone] at hsome
    simp at hsome
  · intro hne hall
    refine hnot ?_
    intro hmem
    have := hall _ hmem
    simp only [Prod.mk.injEq] at this
    exact hne this.1

/-- C11 (witness): with the pairs `(1, 0), (0, 1), (0, 1)` stored, `removeBond(atom0, atom1)`
removes the bond with index 1. -/
theorem C11_removeBond_pair_form_witness :
    ∃ i m', i < 3 ∧
      Molecule.removeBond
        { addr := 1
          m_graph := { vertexCount := 2, edges := [(1, 0), (0, 1), (0, 1)], calls := [] }
          m_atomicNumbers := [6, 1]
          m_bondPairs := [(1, 0), (0, 1), (0, 1)]
          m_bondOrders := [1, 2, 3]
          m_data := VariantMap.empty } i = some m' ∧
      Molecule.removeBondBetween
        { addr := 1
          m_graph := { vertexCount := 2, edges := [(1, 0), (0, 1), (0, 1)], calls := [] }
          m_atomicNumbers := [6, 1]
          m_bondPairs := [(1, 0), (0, 1), (0, 1)]
          m_bondOrders := [1, 2, 3]
          m_data := VariantMap.empty }
        { m_molecule := some 1, m_index := 0 } { m_molecule := some 1, m_index := 1 } = some m' :=
  have h := (C11_removeBond_pair_form
    { addr := 1
      m_graph := { vertexCount := 2, edges := [(1, 0), (0, 1), (0, 1)], calls := [] }
      m_atomicNumbers := [6, 1]
      m_bondPairs := [(1, 0), (0, 1), (0, 1)]
      m_bondOrders := [1, 2, 3]
      m_data := VariantMap.empty }
    { m_molecule := some 1, m_index := 0 } { m_molecule := some 1, m_index := 1 }
    (by decide) (by decide) (by decide)).2.2 (by decide)
  h.imp fun _ hi => hi.imp fun _ hm => ⟨hm.1, hm.2.2.2.1, hm.2.2.2.2⟩

/-- C12. For valid handles `a`, `b` owned by a molecule with `m` bonds, `addBond(a, b, order)`
succeeds and returns a valid bond handle of this molecule with index `m`; `bondCount()`
becomes `m + 1`, `(a.index, b.index)` is appended to `bondPairs` and `order` to `bondOrders`,
the earlier entries of both, `atomicNumbers` and `atomCount()` are unchanged. Nothing is
required of `a.index` and `b.index` or of the pairs already stored, so a self-bond and a
parallel bond are added in the same way. -/
theorem C12_addBond_appends (m : Molecule) (a b : Atom) (order : Nat)
    (ha : a.isValid = true ∧ a.molecule = some m.addr)
    (hb : b.isValid = true ∧ b.molecule = some m.addr) :
    ∃ m' bd, m.addBond a b order = some (m', bd) ∧
      bd.index = m.bondCount ∧ bd.isValid = true ∧ bd.molecule = some m.addr ∧
      m'.bondCount = m.bondCount + 1 ∧
      m'.bondPairs = m.bondPairs ++ [(a.index, b.index)] ∧
      m'.bondOrders = m.bondOrders ++ [order] ∧
      m'.bondPairs.getLast? = some (a.index, b.index) ∧
      m'.bondOrders.getLast? = some order ∧
      (∀ j, j < m.bondCount → m'.bondPairs[j]? = m.bondPairs[j]?) ∧
      (∀ j, j < m.bondOrders.length → m'.bondOrders[j]? = m.bondOrders[j]?) ∧
      m'.atomicNumbers = m.atomicNumbers ∧ m'.atomCount = m.atomCount := by
  refine ⟨{ m with m_graph := m.m_graph.addEdge a.index b.index,
                   m_bondPairs := m.m_bondPairs ++ [(a.index, b.index)],
                   m_bondOrders := m.m_bondOrders ++ [order] },
    { m_molecule := some m.addr, m_index := m.m_bondPairs.length }, ?_, rfl, rfl, rfl, ?_,
    rfl, rfl, ?_, ?_, ?_, ?_, rfl, rfl⟩
  · unfold Molecule.addBond
    rw [if_pos ha, if_pos hb]
    simp
  · simp [Molecule.bondCount]
  · simp [Molecule.bondPairs]
  · simp [Molecule.bondOrders]
  · intro j hj
    simp only [Molecule.bondPairs]
    exact List.getElem?_append_left hj
  · intro j hj
    simp only [Molecule.bondOrders]
    exact List.getElem?_append_left hj

/-- C12 (witness): the pair `(1, 1)` is already stored and the self-bond `(1, 1)` is added
once more. -/
theorem C12_addBond_appends_witness :
    ∃ m' bd, Molecule.addBond
        { addr := 1
          m_graph := { vertexCount := 2, edges := [(1, 1)], calls := [] }
          m_atomicNumbers := [6, 1]
          m_bondPairs := [(1, 1)]
          m_bondOrders := [1]
          m_data := VariantMap.empty }
        { m_molecule := some 1, m_index := 1 } { m_molecule := some 1, m_index := 1 } 2
        = some (m', bd) ∧
      bd.index = 1 ∧ m'.bondCount = 2 ∧ m'.bondPairs = [(1, 1), (1, 1)] ∧
      m'.bondOrders = [1, 2] ∧ m'.atomicNumbers = [6, 1] ∧ m'.atomCount = 2 :=
  have h := C12_addBond_appends
    { addr := 1
      m_graph := { vertexCount := 2, edges := [(1, 1)], calls := [] }
      m_atomicNumbers := [6, 1]
      m_bondPairs := [(1, 1)]
      m_bondOrders := [1]
      m_data := VariantMap.empty }
    { m_molecule := some 1, m_index := 1 } { m_molecule := some 1, m_index := 1 } 2
    (by decide) (by decide)
  h.imp fun _ h1 => h1.imp fun _ hm => ⟨hm.1, hm.2.1, hm.2.2.2.2.1, hm.2.2.2.2.2.1,
    hm.2.2.2.2.2.2.1, hm.2.2.2.2.2.2.2.2.2.2.2.1, hm.2.2.2.2.2.2.2.2.2.2.2.2⟩

/-- C13. For every molecule whose vectors have matching sizes and every
`index < atomCount()`, `removeAtom(index)` succeeds, `atomCount()` decreases by exactly 1,
and `atomicNumbers` is its prior value with exactly the element at position `index` erased:
entries below `index` are unchanged and each entry formerly at position `j > index` is at
position `j - 1`. -/
theorem C13_removeAtom_erases_atomic_number (m : Molecule) (index : Nat)
    (hi : index < m.atomCount) (ha : m.atomicNumbers.length = m.atomCount)
    (hb : m.bondPairs.length = m.bondOrders.length) (hsz : m.bondCount < SIZE_MOD) :
    ∃ m', m.removeAtom index = some m' ∧
      m'.atomCount + 1 = m.atomCount ∧
      m'.atomicNumbers.length + 1 = m.atomicNumbers.length ∧
      m'.atomicNumbers = m.atomicNumbers.take index ++ m.atomicNumbers.drop (index + 1) ∧
      (∀ j, j < index → m'.atomicNumbers[j]? = m.atomicNumbers[j]?) ∧
      (∀ j, index < j → m'.atomicNumbers[j - 1]? = m.atomicNumbers[j]?) := by
  obtain ⟨-, h2⟩ := removeAtom_of_sizes hi ha hb hsz
  have hn : index < m.m_atomicNumbers.length := by
    have : m.m_atomicNumbers.length = m.atomCount := ha
    omega
  refine ⟨_, h2, ?_, ?_, ?_, ?_, ?_⟩
  · simp only [Molecule.atomCount, Graph.size, Graph.removeVertex] at hi ⊢
    omega
  · simp only [Molecule.atomicNumbers]
    rw [List.length_eraseIdx, if_pos hn]
    omega
  · simp only [Molecule.atomicNumbers]
    exact List.eraseIdx_eq_take_drop_succ _ _
  · intro j hj
    simp only [Molecule.atomicNumbers]
    exact List.getElem?_eraseIdx_of_lt _ _ _ hj
  · intro j hj
    simp only [Molecule.atomicNumbers]
    rw [List.getElem?_eraseIdx_of_ge _ _ _ (by omega)]
    congr 1
    omega

/-- C13 (witness): the first of three atoms is removed. -/
theorem C13_removeAtom_erases_atomic_number_witness :
    ∃ m', Molecule.removeAtom
        { addr := 1
          m_graph := { vertexCount := 3, edges := [(0, 1)], calls := [] }
          m_atomicNumbers := [6, 1, 8]
          m_bondPairs := [(0, 1)]
          m_bondOrders := [1]
          m_data := VariantMap.empty } 0 = some m' ∧
      m'.atomCount + 1 = 3 ∧ m'.atomicNumbers = [1, 8] :=
  have h := C13_removeAtom_erases_atomic_number
    { addr := 1
      m_graph := { vertexCount := 3, edges := [(0, 1)], calls := [] }
      m_atomicNumbers := [6, 1, 8]
      m_bondPairs := [(0, 1)]
      m_bondOrders := [1]
      m_data := VariantMap.empty } 0 (by decide) (by decide) (by decide) (by decide)
  h.imp fun _ hm => ⟨hm.1, hm.2.1, hm.2.2.2.1⟩

/-! ### `std::map` -/

theorem mapAt_mapAssign_self (l : List (String × Variant)) (k : String) (v : Variant) :
    mapAt (mapAssign l k v) k = some v := by
  induction l with
  | nil => simp [mapAssign, mapAt]
  | cons e rest ih =>
    obtain ⟨k0, v0⟩ := e
    by_cases h : k0 = k
    · simp [mapAssign, mapAt, h]
    · simp [mapAssign, mapAt, h, ih]

theorem mapAt_mapAssign_of_ne (l : List (String × Variant)) (k k' : String) (v : Variant)
    (hne : k' ≠ k) : mapAt (mapAssign l k v) k' = mapAt l k' := by
  induction l with
  | nil =>
    have h : ¬ k = k' := fun e => hne e.symm
    simp [mapAssign, mapAt, h]
  | cons e rest ih =>
    obtain ⟨k0, v0⟩ := e
    by_cases h : k0 = k
    · subst h
      have h' : ¬ k0 = k' := fun e => hne e.symm
      simp [mapAssign, mapAt, h']
    · by_cases h2 : k0 = k'
      · subst h2
        simp [mapAssign, mapAt, h]
      · simp [mapAssign, mapAt, h, h2, ih]

theorem mapAt_eq_none_iff (l : List (String × Variant)) (k : String) :
    mapAt l k = none ↔ k ∉ l.map Prod.fst := by
  induction l with
  | nil => simp [mapAt]
  | cons e rest ih =>
    obtain ⟨k0, v0⟩ := e
    by_cases h : k0 = k
    · simp [mapAt, h]
    · have h' : ¬ k = k0 := fun e => h e.symm
      simp only [mapAt, h, if_false, ih, List.map_cons, List.mem_cons, h', false_or]

theorem length_mapAssign (l : List (String × Variant)) (k : String) (v : Variant) :
    (mapAssign l k v).length = if mapAt l k = none then l.length + 1 else l.length := by
  induction l with
  | nil => simp [mapAssign, mapAt]
  | cons e rest ih =>
    obtain ⟨k0, v0⟩ := e
    by_cases h : k0 = k
    · simp [mapAssign, mapAt, h]
    · simp only [mapAssign, mapAt, h, if_false, List.length_cons, ih]
      split <;> rfl

theorem keys_mapAssign (l : List (String × Variant)) (k : String) (v : Variant) :
    ∀ k', k' ∈ (mapAssign l k v).map Prod.fst ↔ k' = k ∨ k' ∈ l.map Prod.fst := by
  induction l with
  | nil => intro k'; simp [mapAssign]
  | cons e rest ih =>
    obtain ⟨k0, v0⟩ := e
    intro k'
    by_cases h : k0 = k
    · subst h
      simp [mapAssign]
    · simp only [mapAssign, h, if_false, List.map_cons, List.mem_cons, ih]
      tauto

theorem nodup_keys_mapAssign (l : List (String × Variant)) (k : String) (v : Variant)
    (hnd : (l.map Prod.fst).Nodup) : ((mapAssign l k v).map Prod.fst).Nodup := by
  induction l with
  | nil => simp [mapAssign]
  | cons e rest ih =>
    obtain ⟨k0, v0⟩ := e
    simp only [List.map_cons, List.nodup_cons] at hnd
    by_cases h : k0 = k
    · simp only [mapAssign, h, if_true, List.map_cons, List.nodup_cons]
      rw [← h]
      exact hnd
    · simp only [mapAssign, h, if_false, List.map_cons, List.nodup_cons]
      refine ⟨?_, ih hnd.2⟩
      intro hmem
      rcases (keys_mapAssign rest k v k0).1 hmem with h1 | h1
      · exact h h1
      · exact hnd.1 h1

theorem value_setValues_eq_none_iff (kvs : List (String × Variant)) :
    ∀ (vm : VariantMap) (k : String),
      (vm.setValues kvs).value k = none ↔ vm.value k = none ∧ ∀ kv ∈ kvs, kv.1 ≠ k := by
  induction kvs with
  | nil => intro vm k; simp [VariantMap.setValues]
  | cons kv rest ih =>
    intro vm k
    rw [VariantMap.setValues, ih]
    by_cases h : kv.1 = k
    · have hs : (vm.setValue kv.1 kv.2).value k = some kv.2 := by
        rw [← h]
        exact mapAt_mapAssign_self _ _ _
      rw [hs]
      constructor
      · intro hc
        simp at hc
      · intro hc
        exact absurd h (hc.2 kv (List.mem_cons_self _ _))
    · have hs : (vm.setValue kv.1 kv.2).value k = vm.value k :=
        mapAt_mapAssign_of_ne _ _ _ _ (fun e => h e.symm)
      simp [hs, h]

/-- C14. For every map, key `k` and variant `v`, `value(k)` after `setValue(k, v)` returns
`v`; after any sequence of `setValue` calls on a map, `value(k)` fails exactly when it failed
before and `k` is not among the names that were set, so on a map built from the empty map it
fails if and only if `k` has never been set; `Molecule::setData` and `Molecule::data` behave
in the same way on the data of the molecule and leave its other members alone. -/
theorem C14_variantMap_round_trip (vm : VariantMap) (m : Molecule) (k : String) (v : Variant)
    (kvs : List (String × Variant)) :
    (vm.setValue k v).value k = some v ∧
    ((VariantMap.empty.setValue "x" (Variant.int 5)).value "x" = some (Variant.int 5) ∧
      (VariantMap.empty.setValue "x" (Variant.int 5)).value "missing" = none) ∧
    ((vm.setValues kvs).value k = none ↔ vm.value k = none ∧ ∀ kv ∈ kvs, kv.1 ≠ k) ∧
    ((VariantMap.empty.setValues kvs).value k = none ↔ ∀ kv ∈ kvs, kv.1 ≠ k) ∧
    (vm.value k = none ↔ k ∉ vm.m_map.map Prod.fst) ∧
    (m.setData k v).data k = some v ∧
    m.data k = m.m_data.value k ∧
    (m.setData k v).m_data = m.m_data.setValue k v ∧
    (m.setData k v).bondPairs = m.bondPairs ∧ (m.setData k v).bondOrders = m.bondOrders ∧
    (m.setData k v).atomicNumbers = m.atomicNumbers ∧ (m.setData k v).graph = m.graph := by
  refine ⟨mapAt_mapAssign_self _ _ _, ⟨by decide, by decide⟩,
    value_setValues_eq_none_iff kvs vm k, ?_, mapAt_eq_none_iff _ _,
    mapAt_mapAssign_self _ _ _, rfl, rfl, rfl, rfl, rfl, rfl⟩
  rw [value_setValues_eq_none_iff]
  simp [VariantMap.value, VariantMap.empty, mapAt]

/-- C15. `setValue(k, v)` is insert-or-replace: when `value(k)` failed before, `size()`
increases by exactly 1; when `k` had a value, `size()` is unchanged; in both cases `value(k)`
is `v` afterwards, `value(k')` is unchanged for every other key `k'`, the names stored are
the old names and `k`, pairwise different names stay pairwise different, and `isEmpty()` is
true if and only if `size() == 0`. -/
theorem C15_setValue_insert_or_replace (vm : VariantMap) (k : String) (v : Variant) :
    (vm.value k = none → (vm.setValue k v).size = vm.size + 1) ∧
    (vm.value k ≠ none → (vm.setValue k v).size = vm.size) ∧
    (vm.setValue k v).value k = some v ∧
    (∀ k', k' ≠ k → (vm.setValue k v).value k' = vm.value k') ∧
    (∀ k', k' ∈ (vm.setValue k v).m_map.map Prod.fst ↔ k' = k ∨ k' ∈ vm.m_map.map Prod.fst) ∧
    ((vm.m_map.map Prod.fst).Nodup → ((vm.setValue k v).m_map.map Prod.fst).Nodup) ∧
    (vm.isEmpty = true ↔ vm.size = 0) ∧
    ((vm.setValue k v).isEmpty = true ↔ (vm.setValue k v).size = 0) := by
  have hlen := length_mapAssign vm.m_map k v
  have hemp : ∀ w : VariantMap, w.isEmpty = true ↔ w.size = 0 := by
    intro w
    simp [VariantMap.isEmpty, VariantMap.size, List.isEmpty_iff]
  refine ⟨?_, ?_, mapAt_mapAssign_self _ _ _, ?_, keys_mapAssign _ _ _,
    nodup_keys_mapAssign _ _ _, hemp vm, hemp _⟩
  · intro h
    have h' : mapAt vm.m_map k = none := h
    simp only [VariantMap.size, VariantMap.setValue]
    rw [hlen, if_pos h']
  · intro h
    have h' : ¬ mapAt vm.m_map k = none := h
    simp only [VariantMap.size, VariantMap.setValue]
    rw [hlen, if_neg h']
  · intro k' hne
    exact mapAt_mapAssign_of_ne _ _ _ _ hne

/-- C15 (witness): on a map that holds `x` and `y`, `x` is overwritten and `z` is added. -/
theorem C15_setValue_insert_or_replace_witness :
    (VariantMap.setValue { m_map := [("x", Variant.int 5), ("y", Variant.bool true)] }
        "z" (Variant.int 7)).size = 3 ∧
    (VariantMap.setValue { m_map := [("x", Variant.int 5), ("y", Variant.bool true)] }
        "x" (Variant.int 7)).size = 2 ∧
    (VariantMap.setValue { m_map := [("x", Variant.int 5), ("y", Variant.bool true)] }
        "x" (Variant.int 7)).value "x" = some (Variant.int 7) ∧
    (VariantMap.setValue { m_map := [("x", Variant.int 5), ("y", Variant.bool true)] }
        "x" (Variant.int 7)).value "y" = some (Variant.bool true) :=
  ⟨(C15_setValue_insert_or_replace
      { m_map := [("x", Variant.int 5), ("y", Variant.bool true)] } "z" (Variant.int 7)).1
      (by decide),
   (C15_setValue_insert_or_replace
      { m_map := [("x", Variant.int 5), ("y", Variant.bool true)] } "x" (Variant.int 7)).2.1
      (by decide),
   (C15_setValue_insert_or_replace
      { m_map := [("x", Variant.int 5), ("y", Variant.bool true)] } "x" (Variant.int 7)).2.2.1,
   ((C15_setValue_insert_or_replace
      { m_map := [("x", Variant.int 5), ("y", Variant.bool true)] } "x"
      (Variant.int 7)).2.2.2.1 "y" (by decide)).trans (by decide)⟩

/-! ### The bond scan against the filter of the specification -/

theorem scanErases_of_lt {index : Nat} {p : Nat × Nat} (h1 : p.1 < 256) (h2 : p.2 < 256) :
    scanErases index p = !decide (p.1 ≠ index ∧ p.2 ≠ index) := by
  have e1 : p.1 % 256 = p.1 := Nat.mod_eq_of_lt h1
  have e2 : p.2 % 256 = p.2 := Nat.mod_eq_of_lt h2
  simp only [scanErases, ucharPair, toUChar, e1, e2]
  by_cases a1 : p.1 = index <;> by_cases a2 : p.2 = index <;> simp [a1, a2]

theorem keptPairs_eq_spec (index : Nat) (pairs : List (Nat × Nat))
    (h : ∀ p ∈ pairs, p.1 < 256 ∧ p.2 < 256) :
    keptPairs index pairs = specKeptPairs index pairs := by
  unfold keptPairs specKeptPairs
  apply List.filter_congr
  intro p hp
  rw [scanErases_of_lt (h p hp).1 (h p hp).2]
  simp

theorem keptOrders_eq_spec (index : Nat) :
    ∀ (pairs : List (Nat × Nat)) (orders : List Nat),
      (∀ p ∈ pairs, p.1 < 256 ∧ p.2 < 256) →
      keptOrders index pairs orders = specKeptOrders index pairs orders := by
  intro pairs
  induction pairs with
  | nil => intro orders _; simp [keptOrders, specKeptOrders]
  | cons p rest ih =>
    intro orders h
    cases orders with
    | nil => simp [keptOrders, specKeptOrders]
    | cons o os =>
      have hp := h p (List.mem_cons_self _ _)
      have hrest : ∀ q ∈ rest, q.1 < 256 ∧ q.2 < 256 :=
        fun q hq => h q (List.mem_cons_of_mem _ hq)
      have ih' := ih os hrest
      unfold specKeptOrders at ih' ⊢
      rw [keptOrders, scanErases_of_lt hp.1 hp.2, ih']
      by_cases hk : p.1 ≠ index ∧ p.2 ≠ index
      · simp [List.zip_cons_cons, List.filter_cons, hk]
      · simp [List.zip_cons_cons, List.filter_cons, hk]

theorem zip_kept (index : Nat) :
    ∀ (pairs : List (Nat × Nat)) (orders : List Nat),
      (keptPairs index pairs).zip (keptOrders index pairs orders)
        = ((pairs.zip orders).filter (fun po => !scanErases index po.1)) ∨
      pairs.length ≠ orders.length := by
  intro pairs
  induction pairs with
  | nil => intro orders; left; simp [keptPairs, keptOrders]
  | cons p rest ih =>
    intro orders
    cases orders with
    | nil => right; simp
    | cons o os =>
      rcases ih os with h | h
      · left
        rw [keptPairs_cons, keptOrders]
        cases hs : scanErases index p
        · simp [List.zip_cons_cons, List.filter_cons, hs, h]
        · simp [List.zip_cons_cons, List.filter_cons, hs, h]
      · right
        simpa using h

/-- C16. For every molecule whose vectors have matching sizes and whose stored bond endpoints
are all below 256, and every `index < atomCount()`, the erase loop of `removeAtom(index)`
ends and leaves `bondPairs` equal to the prior `bondPairs` filtered to the entries with
neither endpoint equal to `index`, and `bondOrders` equal to the prior `bondOrders` filtered
at the same positions; `removeAtom` changes neither of them afterwards. So no matching bond
is skipped, the surviving entries keep their relative order, their order values and their
endpoint values exactly as stored. -/
theorem C16_removeAtom_scan_is_filter (m : Molecule) (index : Nat)
    (hi : index < m.atomCount) (ha : m.atomicNumbers.length = m.atomCount)
    (hb : m.bondPairs.length = m.bondOrders.length) (hsz : m.bondCount < SIZE_MOD)
    (h256 : ∀ p ∈ m.bondPairs, p.1 < 256 ∧ p.2 < 256) :
    removeAtomLoop index (m.bondPairs.length + 1) 0 m.bondPairs m.bondOrders
      = some (specKeptPairs index m.bondPairs, specKeptOrders index m.bondPairs m.bondOrders) ∧
    ∃ m', m.removeAtom index = some m' ∧
      m'.bondPairs = specKeptPairs index m.bondPairs ∧
      m'.bondOrders = specKeptOrders index m.bondPairs m.bondOrders ∧
      m'.bondPairs.zip m'.bondOrders
        = (m.bondPairs.zip m.bondOrders).filter
            (fun po => decide (po.1.1 ≠ index ∧ po.1.2 ≠ index)) ∧
      m'.bondPairs.Sublist m.bondPairs ∧
      (∀ p, p ∈ m'.bondPairs ↔ p ∈ m.bondPairs ∧ p.1 ≠ index ∧ p.2 ≠ index) := by
  have hb' : m.m_bondPairs.length = m.m_bondOrders.length := hb
  have h256' : ∀ p ∈ m.m_bondPairs, p.1 < 256 ∧ p.2 < 256 := h256
  have ep := keptPairs_eq_spec index m.m_bondPairs h256'
  have eo := keptOrders_eq_spec index m.m_bondPairs m.m_bondOrders h256'
  obtain ⟨-, h2⟩ := removeAtom_of_sizes hi ha hb hsz
  refine ⟨?_, _, h2, ep, eo, ?_, ?_, ?_⟩
  · have hl := removeAtomLoop_eq index m.m_bondPairs m.m_bondOrders hb' hsz
    rw [ep, eo] at hl
    exact hl
  · simp only [Molecule.bondPairs, Molecule.bondOrders]
    rcases zip_kept index m.m_bondPairs m.m_bondOrders with hz | hz
    · rw [hz]
      apply List.filter_congr
      intro po hpo
      have hmem : po.1 ∈ m.m_bondPairs := (List.of_mem_zip hpo).1
      rw [scanErases_of_lt (h256' _ hmem).1 (h256' _ hmem).2]
      simp
    · exact absurd hb' hz
  · simp only [Molecule.bondPairs]
    exact List.filter_sublist _
  · intro p
    simp only [Molecule.bondPairs]
    rw [ep]
    simp [specKeptPairs]

/-- C16 (witness): five bonds among four atoms, two consecutive bonds of atom 0 at the front
and one at the end; atom 0 is removed. -/
theorem C16_removeAtom_scan_is_filter_witness :
    ∃ m', Molecule.removeAtom
        { addr := 1
          m_graph := { vertexCount := 4, edges := [], calls := [] }
          m_atomicNumbers := [6, 1, 8, 7]
          m_bondPairs := [(0, 1), (2, 0), (1, 2), (3, 2), (0, 3)]
          m_bondOrders := [1, 2, 3, 1, 2]
          m_data := VariantMap.empty } 0 = some m' ∧
      m'.bondPairs = [(1, 2), (3, 2)] ∧ m'.bondOrders = [3, 1] :=
  have h := (C16_removeAtom_scan_is_filter
    { addr := 1
      m_graph := { vertexCount := 4, edges := [], calls := [] }
      m_atomicNumbers := [6, 1, 8, 7]
      m_bondPairs := [(0, 1), (2, 0), (1, 2), (3, 2), (0, 3)]
      m_bondOrders := [1, 2, 3, 1, 2]
      m_data := VariantMap.empty } 0
    (by decide) (by decide) (by decide) (by decide) (by decide)).2
  h.imp fun _ hm => ⟨hm.1, hm.2.1.trans (by decide), hm.2.2.1.trans (by decide)⟩

set_option maxRecDepth 100000 in
/-- C17 (the code at the failing input). On the molecule built by 258 `addAtom` calls and
`addBond(atom256, atom257)`, the bond pair `(256, 257)` has both endpoints different from
`0`, and `removeAtom(0)` succeeds and erases it together with its order: the scan compares
`256 % 256 = 0` with the index `0`. -/
theorem C17_removeAtom_0_erases_bond_256_257 :
    (((Molecule.empty 1).addAtoms (List.replicate 258 6)).1.addBond
        { m_molecule := some 1, m_index := 256 } { m_molecule := some 1, m_index := 257 } 1).map
      (fun r => (r.1.bondPairs, r.1.bondOrders, r.1.atomCount))
      = some ([(256, 257)], [1], 258) ∧
    ((((Molecule.empty 1).addAtoms (List.replicate 258 6)).1.addBond
        { m_molecule := some 1, m_index := 256 } { m_molecule := some 1, m_index := 257 } 1).bind
      (fun r => r.1.removeAtom 0)).map
        (fun m => (m.bondPairs, m.bondOrders, m.atomCount)) = some ([], [], 257) := by
  decide

/-! ### The bond scan with its record of examined entries -/

/-- Dropping the record of examined entries from `removeAtomLoopTrace` gives
`removeAtomLoop`. -/
theorem removeAtomLoopTrace_result (index : Nat) :
    ∀ (fuel i : Nat) (pairs : List (Nat × Nat)) (orders : List Nat),
      (removeAtomLoopTrace index fuel i pairs orders).map (fun r => (r.1, r.2.1))
        = removeAtomLoop index fuel i pairs orders := by
  intro fuel
  induction fuel with
  | zero => intro i pairs orders; simp [removeAtomLoopTrace, removeAtomLoop]
  | succ f ih =>
    intro i pairs orders
    rw [removeAtomLoopTrace, removeAtomLoop]
    by_cases hi : i < pairs.length
    · rw [dif_pos hi, dif_pos hi]
      by_cases hm : (ucharPair (pairs.get ⟨i, hi⟩)).1 = index ∨
          (ucharPair (pairs.get ⟨i, hi⟩)).2 = index
      · simp only [hm, if_true]
        by_cases hio : i < orders.length
        · rw [if_pos hio, if_pos hio, ← ih]
          simp [Option.map_map, Function.comp_def]
        · rw [if_neg hio, if_neg hio]
          rfl
      · simp only [hm, if_false]
        rw [← ih]
        simp [Option.map_map, Function.comp_def]
    · rw [dif_neg hi, dif_neg hi]
      rfl

/-- The bond scan, started at position `pre.length` of `pre ++ rest`, examines the entries of
`rest`, each once and in order. -/
theorem removeAtomLoopTrace_append (index : Nat) :
    ∀ (rest : List (Nat × Nat)) (restO : List Nat) (pre : List (Nat × Nat)) (preO : List Nat)
      (fuel : Nat),
      pre.length = preO.length → rest.length = restO.length →
      pre.length + rest.length < SIZE_MOD → rest.length < fuel →
      removeAtomLoopTrace index fuel pre.length (pre ++ rest) (preO ++ restO)
        = some (pre ++ keptPairs index rest, preO ++ keptOrders index rest restO, rest) := by
  intro rest
  induction rest with
  | nil =>
    intro restO pre preO fuel _ hr _ hf
    cases fuel with
    | zero => simp at hf
    | succ f =>
      cases restO with
      | nil => simp [removeAtomLoopTrace, keptPairs, keptOrders]
      | cons o os => simp at hr
  | cons p rest ih =>
    intro restO pre preO fuel hp hr hsz hf
    cases restO with
    | nil => simp at hr
    | cons o restO =>
      cases fuel with
      | zero => simp at hf
      | succ f =>
        have hr1 : rest.length = restO.length := by simpa using hr
        have hsz1 : pre.length + rest.length + 1 < SIZE_MOD := by
          simp only [List.length_cons] at hsz; omega
        have hf1 : rest.length < f := by
          simp only [List.length_cons] at hf; omega
        have hlt : pre.length < (pre ++ p :: rest).length := by simp
        have hget : (pre ++ p :: rest).get ⟨pre.length, hlt⟩ = p := by
          rw [List.get_eq_getElem, List.getElem_append_right (Nat.le_refl _)]
          simp
        rw [removeAtomLoopTrace, dif_pos hlt]
        simp only [hget]
        by_cases hm : (ucharPair p).1 = index ∨ (ucharPair p).2 = index
        · have hlo : pre.length < (preO ++ o :: restO).length := by simp [hp]
          rw [if_pos hm, if_pos hlo, eraseIdx_length_append]
          rw [hp, eraseIdx_length_append, ← hp, sizeInc_sizeDec (by omega)]
          rw [ih restO pre preO f hp hr1 (by omega) hf1]
          have hs : scanErases index p = true := (scanErases_iff index p).2 hm
          simp [keptPairs_cons, keptOrders, hs]
        · rw [if_neg hm, sizeInc_of_lt (by omega)]
          have h := ih restO (pre ++ [p]) (preO ++ [o]) f (by simp [hp]) hr1
            (by simp only [List.length_append, List.length_singleton]; omega) hf1
          simp only [List.length_append, List.length_singleton, List.append_assoc,
            List.singleton_append] at h
          rw [h]
          have hs : scanErases index p = false := by
            cases hc : scanErases index p
            · rfl
            · exact absurd ((scanErases_iff index p).1 hc) hm
          simp [keptPairs_cons, keptOrders, hs]

/-- C18. For every pair of bond vectors of the same size (below the range of `size_t`) and
every `index`, the bond scan of `removeAtom`, started with counter `0`, terminates: with the
loop condition evaluated `len(bondPairs) + 1` times, hence the body executed at most
`len(bondPairs)` times, it ends without an access outside either vector. The entries the
body examines are exactly the entries of the original `bondPairs`, each once and in order.
When the entry at position `0` is erased the counter goes from `0` to `2^64 - 1` and back to
`0`. -/
theorem C18_removeAtom_scan_terminates (index : Nat) (pairs : List (Nat × Nat))
    (orders : List Nat) (hlen : pairs.length = orders.length) (hsz : pairs.length < SIZE_MOD) :
    removeAtomLoopTrace index (pairs.length + 1) 0 pairs orders
      = some (keptPairs index pairs, keptOrders index pairs orders, pairs) ∧
    removeAtomLoop index (pairs.length + 1) 0 pairs orders
      = some (keptPairs index pairs, keptOrders index pairs orders) ∧
    (∀ fuel i ps os, (removeAtomLoopTrace index fuel i ps os).map (fun r => (r.1, r.2.1))
        = removeAtomLoop index fuel i ps os) ∧
    sizeDec 0 = SIZE_MOD - 1 ∧ sizeInc (SIZE_MOD - 1) = 0 ∧ sizeInc (sizeDec 0) = 0 := by
  refine ⟨?_, removeAtomLoop_eq index pairs orders hlen hsz, removeAtomLoopTrace_result index,
    by decide, by decide, by decide⟩
  have h := removeAtomLoopTrace_append index pairs orders [] [] (pairs.length + 1) rfl hlen
    (by simpa using hsz) (Nat.lt_succ_self _)
  simpa using h

/-- C18 (witness): three bonds, the first two touch atom 0, so position 0 is erased twice and
the counter wraps twice. -/
theorem C18_removeAtom_scan_terminates_witness :
    removeAtomLoopTrace 0 4 0 [(0, 1), (0, 2), (1, 2)] [1, 2, 3]
      = some ([(1, 2)], [3], [(0, 1), (0, 2), (1, 2)]) :=
  (C18_removeAtom_scan_terminates 0 [(0, 1), (0, 2), (1, 2)] [1, 2, 3]
    (by decide) (by decide)).1

/-- C19. `addBond(a, b, order)` fails, producing no new state, if and only if at least one of
`a`, `b` is an invalid handle (null owner) or is owned by a different molecule. It makes no
check of `a.index` or `b.index` against `atomCount()`: for valid handles of this molecule the
call succeeds whatever the indices are, and the raw pair `(a.index, b.index)` is stored in
`bondPairs` and passed to `Graph.addEdge`. -/
theorem C19_addBond_fails_iff_foreign_handle (m : Molecule) (a b : Atom) (order : Nat) :
    (m.addBond a b order = none ↔
      (a.isValid = false ∨ a.molecule ≠ some m.addr) ∨
      (b.isValid = false ∨ b.molecule ≠ some m.addr)) ∧
    ((a.isValid = true ∧ a.molecule = some m.addr) →
      (b.isValid = true ∧ b.molecule = some m.addr) →
      ∃ m' bd, m.addBond a b order = some (m', bd) ∧
        m'.bondPairs = m.bondPairs ++ [(a.index, b.index)] ∧
        m'.bondPairs.getLast? = some (a.index, b.index) ∧
        m'.graph.calls = m.graph.calls ++ [GraphCall.addEdge a.index b.index]) := by
  constructor
  · unfold Molecule.addBond
    by_cases ha : a.isValid = true ∧ a.molecule = some m.addr
    · by_cases hb : b.isValid = true ∧ b.molecule = some m.addr
      · rw [if_pos ha, if_pos hb]
        simp [ha.1, ha.2, hb.1, hb.2]
      · rw [if_pos ha, if_neg hb]
        simp only [true_iff]
        right
        by_cases hv : b.isValid = true
        · exact Or.inr (fun h => hb ⟨hv, h⟩)
        · exact Or.inl (by simpa using hv)
    · rw [if_neg ha]
      simp only [true_iff]
      left
      by_cases hv : a.isValid = true
      · exact Or.inr (fun h => ha ⟨hv, h⟩)
      · exact Or.inl (by simpa using hv)
  · intro ha hb
    refine ⟨{ m with m_graph := m.m_graph.addEdge a.index b.index,
                     m_bondPairs := m.m_bondPairs ++ [(a.index, b.index)],
                     m_bondOrders := m.m_bondOrders ++ [order] },
      { m_molecule := some m.addr, m_index := m.m_bondPairs.length }, ?_, rfl, ?_, rfl⟩
    · unfold Molecule.addBond
      rw [if_pos ha, if_pos hb]
      simp
    · simp [Molecule.bondPairs]

/-- C19 (witness): on a molecule with one atom, `addBond` with the handles `Atom(this, 0)` and
`Atom(this, 99)` stores the pair `(0, 99)`; with a null handle or a handle of the molecule at
address 2 it fails. -/
theorem C19_addBond_fails_iff_foreign_handle_witness :
    (∃ m' bd, Molecule.addBond ((Molecule.empty 1).addAtom 6).1
        { m_molecule := some 1, m_index := 0 } { m_molecule := some 1, m_index := 99 } 1
        = some (m', bd) ∧ m'.bondPairs = [(0, 99)]) ∧
    Molecule.addBond ((Molecule.empty 1).addAtom 6).1
        { m_molecule := none, m_index := 0 } { m_molecule := some 1, m_index := 0 } 1 = none ∧
    Molecule.addBond ((Molecule.empty 1).addAtom 6).1
        { m_molecule := some 1, m_index := 0 } { m_molecule := some 2, m_index := 0 } 1 = none :=
  ⟨((C19_addBond_fails_iff_foreign_handle ((Molecule.empty 1).addAtom 6).1
      { m_molecule := some 1, m_index := 0 } { m_molecule := some 1, m_index := 99 } 1).2
      (by decide) (by decide)).imp fun _ h1 => h1.imp fun _ hm => ⟨hm.1, hm.2.1⟩,
   (C19_addBond_fails_iff_foreign_handle ((Molecule.empty 1).addAtom 6).1
      { m_molecule := none, m_index := 0 } { m_molecule := some 1, m_index := 0 } 1).1.2
      (Or.inl (Or.inl (by decide))),
   (C19_addBond_fails_iff_foreign_handle ((Molecule.empty 1).addAtom 6).1
      { m_molecule := some 1, m_index := 0 } { m_molecule := some 2, m_index := 0 } 1).1.2
      (Or.inr (Or.inr (by decide)))⟩

end MolCore
